import Mathlib

/-!
# Verification of the wp-transform CSV migration script

Shallow embedding of `src/transform/transform.py` and
`src/transform/stcroix_locations.py`.  Python strings are modelled as
`List Char`; Python `None`/empty-string truthiness is modelled by the
empty list where the source only ever tests truthiness.  Machine-level
concerns do not arise (all arithmetic is on small naturals).
-/

namespace WpTransform

/-! ## Python string primitives -/

/-- `str.lstrip()` : drop leading whitespace (Python strips Unicode
whitespace; ASCII whitespace is what occurs in this data). -/
def pyLStrip (s : List Char) : List Char := s.dropWhile Char.isWhitespace

/-- `str.rstrip()` : drop trailing whitespace. -/
def pyRStrip (s : List Char) : List Char :=
  ((s.reverse).dropWhile Char.isWhitespace).reverse

/-- `str.strip()` : drop whitespace at both ends. -/
def pyStrip (s : List Char) : List Char := pyRStrip (pyLStrip s)

/-- `str.lstrip(c)` for a single character argument. -/
def lstripChar (c : Char) (s : List Char) : List Char := s.dropWhile (· = c)

/-- `str.rstrip(c)` for a single character argument. -/
def rstripChar (c : Char) (s : List Char) : List Char :=
  ((s.reverse).dropWhile (· = c)).reverse

/-- `str.strip(c)` for a single character argument. -/
def stripChar (c : Char) (s : List Char) : List Char :=
  rstripChar c (lstripChar c s)

/-- `str.lower()` (ASCII lowering, which is what the data exercises). -/
def pyLower (s : List Char) : List Char := s.map Char.toLower

/-- `str.title()` : first cased character of each run of letters is
uppercased, the following letters are lowercased; non-letters break
words. -/
def pyTitle (s : List Char) : List Char :=
  (s.foldl
    (fun (acc : List Char × Bool) c =>
      if c.isAlpha then
        (((if acc.2 then c.toLower else c.toUpper) :: acc.1), true)
      else ((c :: acc.1), false))
    ([], false)).1.reverse

/-- `a.replace(old, new, 1)` : replace the first occurrence of `old`
(non-empty) by `new`. -/
def pyReplaceFirst (old new s : List Char) : List Char :=
  match s with
  | [] => []
  | c :: rest =>
    if old.isPrefixOf s then new ++ s.drop old.length
    else c :: pyReplaceFirst old new rest

/-- `str.split(sep)` for a single separator character (pieces may be
empty, as in Python). -/
def pySplitChar (sep : Char) (s : List Char) : List (List Char) :=
  match s with
  | [] => [[]]
  | c :: rest =>
    if c = sep then [] :: pySplitChar sep rest
    else match pySplitChar sep rest with
      | [] => [[c]]
      | p :: ps => (c :: p) :: ps

/-- `re.split('[<seps>]', s)` : split on any of the separator
characters, keeping empty pieces. -/
def pySplitAny (seps : List Char) (s : List Char) : List (List Char) :=
  match s with
  | [] => [[]]
  | c :: rest =>
    if c ∈ seps then [] :: pySplitAny seps rest
    else match pySplitAny seps rest with
      | [] => [[c]]
      | p :: ps => (c :: p) :: ps

/-- `','.join(parts)` style join with a single character separator. -/
def joinChar (sep : Char) : List (List Char) → List Char
  | [] => []
  | [p] => p
  | p :: ps => p ++ sep :: joinChar sep ps

/-- Decimal digits of a natural number, with structural fuel (a fuel of
`n` always suffices since a number has at most `n + 1` digits). -/
def natDigitsAux : Nat → Nat → List Char
  | 0, n => [Char.ofNat (48 + n % 10)]
  | fuel + 1, n =>
    if n < 10 then [Char.ofNat (48 + n)]
    else natDigitsAux fuel (n / 10) ++ [Char.ofNat (48 + n % 10)]

/-- Decimal digits of a natural number (models Python `str(n)` for the
non-negative ids used by the script). -/
def natDigits (n : Nat) : List Char := natDigitsAux n n

/-- Keep the first occurrence of every element not already in `seen`
(Python's seen-set / dict-insertion-order dedup loop). -/
def dedupSeen {α : Type} [DecidableEq α] (seen : List α) : List α → List α
  | [] => []
  | a :: rest =>
    if a ∈ seen then dedupSeen seen rest
    else a :: dedupSeen (a :: seen) rest

/-- Keep the first occurrence of every element as keyed by `f`
(models the `seen` set of lowercased urls, lines 450-456). -/
def dedupSeenBy {α β : Type} [DecidableEq β] (f : α → β) (seen : List β) :
    List α → List α
  | [] => []
  | a :: rest =>
    if f a ∈ seen then dedupSeenBy f seen rest
    else a :: dedupSeenBy f (f a :: seen) rest

/-- `sep.join(parts)` with a multi-character separator. -/
def joinStr (sep : List Char) : List (List Char) → List Char
  | [] => []
  | [p] => p
  | p :: ps => p ++ sep ++ joinStr sep ps

/-- Python `pat in s` on strings: contiguous substring test. -/
def containsSub (pat s : List Char) : Bool := decide (pat <:+: s)

/-- Case-insensitive prefix test (ASCII case folding), for regex
matching under `re.IGNORECASE`. -/
def ciIsPrefixOf (pat s : List Char) : Bool :=
  (pat.map Char.toLower).isPrefixOf (s.map Char.toLower)

/-- Lexicographic (code-point) `≤` on strings, as used by Python
`sorted` on strings. -/
def lexLe : List Char → List Char → Bool
  | [], _ => true
  | _ :: _, [] => false
  | a :: as, b :: bs =>
    if a.val < b.val then true
    else if a.val = b.val then lexLe as bs
    else false

/-- Python `sorted` on a list of strings. -/
def sortLex (l : List (List Char)) : List (List Char) := l.mergeSort lexLe

/-- Python `sorted(l, key=str.lower)` (stable). -/
def sortByLower (l : List (List Char)) : List (List Char) :=
  l.mergeSort (fun a b => lexLe (pyLower a) (pyLower b))

/-! ## Social media URL transformation (`transform.py` lines 18-27,
282-353) -/

/-- `SOCIAL_MEDIA_URLS` : platform → base URL (lines 18-27). -/
def SOCIAL_MEDIA_URLS : List (String × String) :=
  [("facebook", "https://www.facebook.com/"),
   ("twitter", "https://twitter.com/"),
   ("instagram", "https://www.instagram.com/"),
   ("pinterest", "https://www.pinterest.com/"),
   ("youtube", "https://www.youtube.com/@"),
   ("linkedin", "https://www.linkedin.com/"),
   ("trip_advisor", "https://www.tripadvisor.com/"),
   ("yelp", "https://www.yelp.com/biz/")]

/-- `clean_url` (lines 282-297): ensure the URL has a protocol. -/
def clean_url (url : List Char) : List Char :=
  if url = [] then []
  else
    let url := pyStrip url
    if "http://".data.isPrefixOf url ∨ "https://".data.isPrefixOf url then url
    else if url ≠ [] ∧ ¬ "http".data.isPrefixOf url then "https://".data ++ url
    else url

/-- The username-cleaning steps of `transform_social_url`
(lines 326-334): strip trailing slashes, leading `@`, then whitespace. -/
def socialUsername (value : List Char) : List Char :=
  pyStrip (lstripChar '@' (rstripChar '/' value))

/-- `transform_social_url` (lines 299-353). -/
def transform_social_url (platform : String) (value : List Char) : List Char :=
  if value = [] then []
  else
    let v := pyStrip value
    if v = [] then []
    else if "http://".data.isPrefixOf v then
      pyReplaceFirst "http://".data "https://".data v
    else if "https://".data.isPrefixOf v then v
    else
      let username := socialUsername v
      if username = [] then []
      else if platform = "linkedin" then
        if "in/".data.isPrefixOf username ∨ "company/".data.isPrefixOf username then
          "https://www.linkedin.com/".data ++ username
        else "https://www.linkedin.com/".data ++ "in/".data ++ username
      else
        match SOCIAL_MEDIA_URLS.lookup platform with
        | some base => base.data ++ username
        | none => clean_url value

/-! ## Phone formatting (`transform.py` lines 205-221) -/

/-- `format_phone` (lines 205-221). `re.sub(r'\D', '', phone)` keeps
exactly the digit characters. -/
def format_phone (phone : List Char) : List Char :=
  if phone = [] then []
  else
    let digits := phone.filter Char.isDigit
    if digits.length = 10 then
      digits.take 3 ++ '-' :: ((digits.drop 3).take 3 ++ '-' :: digits.drop 6)
    else if digits.length = 7 then
      '3' :: '4' :: '0' :: '-' :: (digits.take 3 ++ '-' :: digits.drop 3)
    else phone

/-! ## Category/tag name-to-ID mapping (`transform.py` lines 29-202) -/

/-- The loaded `categories_and_tags.json` mapping:
map type (`"categories"`/`"tags"`) → name → id. -/
abbrev NameIdMap := List (String × List (List Char × Nat))

/-- `get_id_by_name` (lines 56-74).  Both `KeyError` paths (missing map
type, missing name) are returned as `none`; they are caught by the same
`except KeyError` in `transform_names_to_ids`. -/
def get_id_by_name (m : NameIdMap) (name : List Char) (mapType : String) : Option Nat :=
  (m.lookup mapType).bind (fun tbl => tbl.lookup name)

/-- One name lookup of `transform_names_to_ids` (lines 113-125): exact
match, then title case, then the fallback id; the `Bool` records
whether the name was unmapped (added to the tracker). -/
def resolveName (m : NameIdMap) (mapType : String) (fallbackId : Nat)
    (name : List Char) : Nat × Bool :=
  match get_id_by_name m name mapType with
  | some i => (i, false)
  | none =>
    match get_id_by_name m (pyTitle name) mapType with
    | some i => (i, false)
    | none => (fallbackId, true)

/-- The name loop of `transform_names_to_ids` (lines 104-130).  `acc`
holds the ids collected so far (the Python `seen_ids` set always equals
the set of collected ids).  Returns the ids newly appended and the
sequence of stripped unmapped names passed to `unmapped_tracker.add`. -/
def collectIds (m : NameIdMap) (mapType : String) (fallbackId : Nat)
    (acc : List Nat) : List (List Char) → List Nat × List (List Char)
  | [] => ([], [])
  | n :: rest =>
    let s := pyStrip n
    if s = [] then collectIds m mapType fallbackId acc rest
    else
      let r := resolveName m mapType fallbackId s
      let tracked := if r.2 then [s] else []
      if r.1 ∈ acc then
        let rec' := collectIds m mapType fallbackId acc rest
        (rec'.1, tracked ++ rec'.2)
      else
        let rec' := collectIds m mapType fallbackId (r.1 :: acc) rest
        (r.1 :: rec'.1, tracked ++ rec'.2)

/-- `transform_names_to_ids` (lines 76-136).  The optional Python
tracker set is modelled by also returning the list of unmapped stripped
names that the source adds to it. -/
def transform_names_to_ids (m : NameIdMap) (text : List Char) (mapType : String)
    (separators : List Char) (fallbackId : Nat) : List Char × List (List Char) :=
  if text = [] ∨ pyStrip text = [] then ([], [])
  else
    let names := pySplitAny separators text
    let r := collectIds m mapType fallbackId [] names
    if r.1 = [] then ([], r.2)
    else (',' :: (joinChar ',' (r.1.map natDigits) ++ [',']), r.2)

/-- `transform_categories_to_ids` (lines 139-150). -/
def transform_categories_to_ids (m : NameIdMap) (text : List Char) :
    List Char × List (List Char) :=
  transform_names_to_ids m text "categories" "|,".data 2040

/-- `transform_tags_to_ids` (lines 153-169): empty result (and no
tracking) when no tag mapping exists. -/
def transform_tags_to_ids (m : NameIdMap) (text : List Char) :
    List Char × List (List Char) :=
  match m.lookup "tags" with
  | none => ([], [])
  | some tagMap =>
    if tagMap = [] then ([], [])
    else transform_names_to_ids m text "tags" "|".data 2040

/-- `get_first_category_id` (lines 172-202). -/
def get_first_category_id (postCategoryIds : List Char) : List Char :=
  if postCategoryIds = [] ∨ pyStrip postCategoryIds = [] then "2040".data
  else
    let ids := pySplitChar ',' (stripChar ',' postCategoryIds)
    match (ids.map pyStrip).find? (fun s => !s.isEmpty && s.all Char.isDigit) with
    | some s => s
    | none => "2040".data

/-! ## St. Croix locations (`stcroix_locations.py`) -/

/-- `LOCATION_COORDS` (`stcroix_locations.py` lines 8-39). -/
def LOCATION_COORDS : List (List Char × (String × String)) :=
  [("christiansted".data, ("17.7475", "-64.7011")),
   ("frederiksted".data, ("17.7128", "-64.8844")),
   ("east end".data, ("17.7644", "-64.5850")),
   ("west end".data, ("17.7100", "-64.8900")),
   ("north shore".data, ("17.7750", "-64.7500")),
   ("mid island".data, ("17.7300", "-64.7500")),
   ("gallows bay".data, ("17.7400", "-64.6900")),
   ("cane bay".data, ("17.7717", "-64.8078")),
   ("salt river".data, ("17.7800", "-64.7600")),
   ("sandy point".data, ("17.6800", "-64.9000")),
   ("5 corners".data, ("17.7500", "-64.7100")),
   ("buck island".data, ("17.7889", "-64.6222")),
   ("airport".data, ("17.7019", "-64.7986")),
   ("frederiksted pier".data, ("17.7115", "-64.8845")),
   ("the buccaneer".data, ("17.7569", "-64.6247")),
   ("island wide".data, ("17.7478", "-64.7059")),
   ("island-wide".data, ("17.7478", "-64.7059")),
   ("accessible by boat only".data, ("17.7478", "-64.7059")),
   ("us virgin islands and stateside".data, ("17.7478", "-64.7059"))]

/-- `get_coordinates` (`stcroix_locations.py` lines 41-69).  The Python
`(None, None)` return is the `(none, none)` pair. -/
def get_coordinates (locationStr : List Char) : Option String × Option String :=
  if locationStr = [] then (none, none)
  else
    let locationLower := pyStrip (pyLower locationStr)
    match LOCATION_COORDS.lookup locationLower with
    | some p => (some p.1, some p.2)
    | none =>
      match LOCATION_COORDS.find? (fun kv => containsSub kv.1 locationLower) with
      | some kv => (some kv.2.1, some kv.2.2)
      | none => (none, none)

/-- `get_default_coordinates` (`stcroix_locations.py` lines 71-73). -/
def get_default_coordinates : String × String := ("17.7478", "-64.7059")

/-! ## JPG extraction (`transform.py` lines 385-463)

`jpg_pattern = r'(?:src=|href=)?["\']?(https?://[^\s"\'<>]+\.jpe?g)["\']?'`
with `re.IGNORECASE`.  The optional `src=`/`href=`/quote prefixes are
matched without backtracking: whenever one of them is textually present
but the rest of the pattern fails, the backtracked alternative without
it fails as well (a quote or the letters of `src=`/`href=` can never
start `https?://`), so a single-pass test is equivalent. -/

/-- The `[^\s"'<>]` character class of `jpg_pattern`. -/
def jpgUrlChar (c : Char) : Bool :=
  !c.isWhitespace && c != '"' && c != '\'' && c != '<' && c != '>'

/-- Greedy backtracking of `[^\s"'<>]+\.jpe?g`: the largest `j ≥ 1`
such that `.jpeg`/`.jpg` (case-insensitive) starts at offset `j` of
`body`; `j` counts down from the maximal run length.  Returns
`(j, extension length)`. -/
def jpgBodyEnd (body : List Char) : Nat → Option (Nat × Nat)
  | 0 => none
  | j + 1 =>
    if ciIsPrefixOf ".jpeg".data (body.drop (j + 1)) then some (j + 1, 5)
    else if ciIsPrefixOf ".jpg".data (body.drop (j + 1)) then some (j + 1, 4)
    else jpgBodyEnd body j

/-- Try to match `jpg_pattern` at the start of `s`.  Returns the
captured group (the URL without the prefixes/quotes) and the remainder
of the text after the whole match. -/
def matchJpgAt (s : List Char) : Option (List Char × List Char) :=
  let s1 := if ciIsPrefixOf "src=".data s then s.drop 4
            else if ciIsPrefixOf "href=".data s then s.drop 5 else s
  let s2 := match s1 with
            | '"' :: t => t
            | '\'' :: t => t
            | _ => s1
  let protoLen := if ciIsPrefixOf "https://".data s2 then some 8
                  else if ciIsPrefixOf "http://".data s2 then some 7 else none
  match protoLen with
  | none => none
  | some k =>
    let body := s2.drop k
    match jpgBodyEnd body (body.takeWhile jpgUrlChar).length with
    | none => none
    | some je =>
      let url := s2.take (k + je.1 + je.2)
      let rest0 := s2.drop (k + je.1 + je.2)
      let rest := match rest0 with
                  | '"' :: t => t
                  | '\'' :: t => t
                  | _ => rest0
      some (url, rest)

/-- `re.findall(jpg_pattern, content, re.IGNORECASE)` (line 403):
leftmost, non-overlapping matches.  The fuel is the content length
(every step consumes at least one character). -/
def jpgMatchesAux : Nat → List Char → List (List Char)
  | 0, _ => []
  | fuel + 1, s =>
    match matchJpgAt s with
    | some ur => ur.1 :: jpgMatchesAux fuel ur.2
    | none =>
      match s with
      | [] => []
      | _ :: t => jpgMatchesAux fuel t

/-- All URLs extracted from the content by `jpg_pattern`. -/
def jpgMatches (content : List Char) : List (List Char) :=
  jpgMatchesAux content.length content

/-- `int(digits)` for a digit string. -/
def digitsToNat (ds : List Char) : Nat :=
  ds.foldl (fun n c => n * 10 + (c.toNat - 48)) 0

/-- Parse the `-(\d+)x(\d+)(\.jpe?g)$` resolution suffix (lines
408-420, `re.IGNORECASE`): returns `(base_url, width)` where `base_url`
replaces the suffix by the extension (`re.sub(..., r'\3', url)`).
Parsing from the right end is equivalent to `re.search` because digit
runs are delimited by the non-digits `-`/`x`, so at most one start
position can match. -/
def parseResSuffix (url : List Char) : Option (List Char × Nat) :=
  let r := url.reverse
  let extLen := if ciIsPrefixOf "gepj.".data r then some 5
                else if ciIsPrefixOf "gpj.".data r then some 4 else none
  match extLen with
  | none => none
  | some e =>
    let r1 := r.drop e
    let hDigits := r1.takeWhile Char.isDigit
    if hDigits = [] then none
    else
      match r1.drop hDigits.length with
      | x :: r3 =>
        if x = 'x' ∨ x = 'X' then
          let wDigits := r3.takeWhile Char.isDigit
          if wDigits = [] then none
          else
            match r3.drop wDigits.length with
            | '-' :: r4 => some (r4.reverse ++ (r.take e).reverse, digitsToNat wDigits.reverse)
            | _ => none
        else none
      | [] => none

/-- `base_url` of a matched URL (the URL itself when it has no
resolution suffix, lines 424-429). -/
def baseOf (url : List Char) : List Char :=
  match parseResSuffix url with
  | some p => p.1
  | none => url

/-- The width of the resolution suffix, `none` for a master URL. -/
def widthOf (url : List Char) : Option Nat :=
  (parseResSuffix url).map Prod.snd

/-- Sort key of line 444: `(x[1] != 1440, -(x[1] or 0))`. -/
def jpgSortKey (url : List Char) : Nat × Int :=
  (if widthOf url = some 1440 then 0 else 1, -(((widthOf url).getD 0 : Nat) : Int))

/-- Head of Python's stable `sorted(variants, key=jpgSortKey)`: the
first element with lexicographically minimal key. -/
def firstMinBy (key : List Char → Nat × Int) : List (List Char) → List Char
  | [] => []
  | [u] => u
  | u :: v :: rest =>
    let w := firstMinBy key (v :: rest)
    if (key w).1 < (key u).1 ∨ ((key w).1 = (key u).1 ∧ (key w).2 < (key u).2) then w
    else u

/-- Master selection for one group (lines 433-447): the variant without
a resolution suffix if any, otherwise the first minimal-key variant
(1440 width preferred, then largest width). -/
def selectMaster (variants : List (List Char)) : List Char :=
  match variants.find? (fun u => (widthOf u).isNone) with
  | some u => u
  | none => firstMinBy jpgSortKey variants

/-- The selected master of every group of `url_groups`, in dict
insertion order (first occurrence of each base); each group's variant
list is the sublist of matches with that base (lines 412-447). -/
def jpgMasters (urls : List (List Char)) : List (List Char) :=
  (dedupSeen [] (urls.map baseOf)).map
    (fun g => selectMaster (urls.filter (fun u => baseOf u == g)))

/-- The deduplicated master URLs (lines 449-456; dedup key is the
lowercased URL). -/
def jpgUniqueUrls (content : List Char) : List (List Char) :=
  dedupSeenBy pyLower [] (jpgMasters (jpgMatches content))

/-- GeoDirectory media formatting: `'|'.join([url, '', '', ''])`
joined with `'::'` (lines 458-463). -/
def formatGD (urls : List (List Char)) : List Char :=
  joinStr "::".data (urls.map (fun u => u ++ "|||".data))

/-- `extract_jpg_urls_from_content` (lines 385-463). -/
def extract_jpg_urls_from_content (content : List Char) : List Char :=
  if content = [] then [] else formatGD (jpgUniqueUrls content)

/-! ## YouTube extraction (`transform.py` lines 466-506) -/

/-- The `[a-zA-Z0-9_-]` class of the YouTube patterns. -/
def ytIdChar (c : Char) : Bool := c.isAlpha || c.isDigit || c == '_' || c == '-'

/-- Match one of the YouTube patterns at the head of `s`:
`(?:https?:)?//(www\.)?<host>([a-zA-Z0-9_-]+)` under `re.IGNORECASE`
(the `www.` part only for the `youtube.com` patterns).  As with
`jpg_pattern`, the optional scheme/`www.` prefixes need no backtracking:
when present but not followed by the rest of the pattern, the shorter
alternative fails too. -/
def matchYtAt (allowWww : Bool) (host : List Char) (s : List Char) :
    Option (List Char × List Char) :=
  let s1 := if ciIsPrefixOf "https:".data s then s.drop 6
            else if ciIsPrefixOf "http:".data s then s.drop 5 else s
  match s1 with
  | '/' :: '/' :: t =>
    let t1 := if allowWww && ciIsPrefixOf "www.".data t then t.drop 4 else t
    if ciIsPrefixOf host t1 then
      let body := t1.drop host.length
      let vid := body.takeWhile ytIdChar
      if vid = [] then none else some (vid, body.drop vid.length)
    else none
  | _ => none

/-- `re.findall` of one YouTube pattern (lines 491-493). -/
def ytFindAux (allowWww : Bool) (host : List Char) : Nat → List Char → List (List Char)
  | 0, _ => []
  | fuel + 1, s =>
    match matchYtAt allowWww host s with
    | some vr => vr.1 :: ytFindAux allowWww host fuel vr.2
    | none =>
      match s with
      | [] => []
      | _ :: t => ytFindAux allowWww host fuel t

/-- `extract_youtube_urls_from_content` (lines 466-506).  The Python
`set` union followed by `sorted` is the sort of the first-occurrence
dedup. -/
def extract_youtube_urls_from_content (content : List Char) : List Char :=
  if content = [] then []
  else
    let ids1 := ytFindAux true "youtube.com/embed/".data content.length content
    let ids2 := ytFindAux true "youtube.com/watch?v=".data content.length content
    let ids3 := ytFindAux false "youtu.be/".data content.length content
    let vids := sortLex (dedupSeen [] (ids1 ++ ids2 ++ ids3))
    if vids = [] then []
    else formatGD (vids.map (fun v => "https://www.youtube.com/embed/".data ++ v))

/-! ## Image gallery formatting (`transform.py` lines 223-261) -/

/-- The `[^\s",\]]` class of the array-format URL pattern (line 245). -/
def galleryUrlChar (c : Char) : Bool :=
  !c.isWhitespace && c != '"' && c != ',' && c != ']'

/-- Match `https?://[^\s",\]]+` (case-sensitive) at the head of `s`. -/
def galleryMatchAt (s : List Char) : Option (List Char × List Char) :=
  let protoLen := if "https://".data.isPrefixOf s then some 8
                  else if "http://".data.isPrefixOf s then some 7 else none
  match protoLen with
  | none => none
  | some k =>
    let run := (s.drop k).takeWhile galleryUrlChar
    if run = [] then none
    else some (s.take (k + run.length), s.drop (k + run.length))

/-- `re.findall(r'https?://[^\s",\]]+', s)` (line 245). -/
def galleryFindAux : Nat → List Char → List (List Char)
  | 0, _ => []
  | fuel + 1, s =>
    match galleryMatchAt s with
    | some ur => ur.1 :: galleryFindAux fuel ur.2
    | none =>
      match s with
      | [] => []
      | _ :: t => galleryFindAux fuel t

/-- `format_images_gallery` (lines 223-261). -/
def format_images_gallery (imagesField : List Char) : List Char :=
  if imagesField = [] then []
  else
    let fmt := fun (urls : List (List Char)) =>
      if urls = [] then [] else formatGD urls
    if '|' ∈ imagesField ∧ ¬ containsSub "::".data imagesField then
      fmt (((pySplitChar '|' imagesField).map pyStrip).filter (· ≠ []))
    else if ',' ∈ imagesField ∧ containsSub "http".data imagesField then
      fmt (((pySplitChar ',' imagesField).map pyStrip).filter (· ≠ []))
    else if imagesField.take 1 = ['['] then
      fmt (galleryFindAux imagesField.length imagesField)
    else if containsSub "::".data imagesField then imagesField
    else if pyStrip imagesField ≠ [] then fmt [pyStrip imagesField]
    else []

/-! ## Beaver Builder tag filtering (`transform.py` lines 355-382)

All four patterns end in `X*<terminator>` where the terminator's first
character is excluded from `X`, so each match necessarily ends at the
first occurrence of that character; the greedy `\s*`/`/?` pieces need no
backtracking because whitespace can never begin the literal that
follows them. -/

/-- Match `<!--\s*/?<tag>[^>]*-->` at the head of `s` (`/?` only when
`allowSlash`); returns the remainder after the match. -/
def matchBBCommentAt (tag : List Char) (allowSlash : Bool) (s : List Char) :
    Option (List Char) :=
  if "<!--".data.isPrefixOf s then
    let t0 := (s.drop 4).dropWhile Char.isWhitespace
    let t := if allowSlash then (match t0 with | '/' :: t' => t' | _ => t0) else t0
    if tag.isPrefixOf t then
      let u := t.drop tag.length
      let k := (u.takeWhile (· != '>')).length
      match u.drop k with
      | '>' :: rest =>
        if "--".data.isSuffixOf (u.take k) then some rest else none
      | _ => none
    else none
  else none

/-- `re.sub` of a Beaver Builder comment pattern with `''` (all
non-overlapping matches, left to right). -/
def subBBCommentAux (tag : List Char) (allowSlash : Bool) : Nat → List Char → List Char
  | 0, s => s
  | fuel + 1, s =>
    match matchBBCommentAt tag allowSlash s with
    | some rest => subBBCommentAux tag allowSlash fuel rest
    | none =>
      match s with
      | [] => []
      | c :: t => c :: subBBCommentAux tag allowSlash fuel t

/-- Match `\\u003c!\\u002d\\u002d\s*/?<tag>[^\\]*\\u002d\\u002d\\u003e`
at the head of `s` (escaped-Unicode Beaver Builder tags, lines
376-377). -/
def matchBBUnicodeAt (tag : List Char) (allowSlash : Bool) (s : List Char) :
    Option (List Char) :=
  let pre := "\\u003c!\\u002d\\u002d".data
  let suf := "\\u002d\\u002d\\u003e".data
  if pre.isPrefixOf s then
    let t0 := (s.drop pre.length).dropWhile Char.isWhitespace
    let t := if allowSlash then (match t0 with | '/' :: t' => t' | _ => t0) else t0
    if tag.isPrefixOf t then
      let u := t.drop tag.length
      let k := (u.takeWhile (· != '\\')).length
      if suf.isPrefixOf (u.drop k) then some ((u.drop k).drop suf.length) else none
    else none
  else none

/-- `re.sub` of an escaped-Unicode Beaver Builder pattern with `''`. -/
def subBBUnicodeAux (tag : List Char) (allowSlash : Bool) : Nat → List Char → List Char
  | 0, s => s
  | fuel + 1, s =>
    match matchBBUnicodeAt tag allowSlash s with
    | some rest => subBBUnicodeAux tag allowSlash fuel rest
    | none =>
      match s with
      | [] => []
      | c :: t => c :: subBBUnicodeAux tag allowSlash fuel t

/-- Match `\n\s*\n\s*\n` (greedy) at the head of `s`: succeeds iff the
maximal whitespace run starting here begins with a newline and contains
at least three newlines; the greedy match then extends through the last
newline of the run.  Returns the remainder. -/
def matchTripleNlAt (s : List Char) : Option (List Char) :=
  match s with
  | '\n' :: t =>
    let run := t.takeWhile Char.isWhitespace
    if 2 ≤ (run.filter (· == '\n')).length then
      let tailNonNl := (run.reverse.takeWhile (fun c => c != '\n')).length
      some (t.drop (run.length - tailNonNl))
    else none
  | _ => none

/-- `re.sub(r'\n\s*\n\s*\n', '\n\n', content)` (line 380). -/
def subTripleNlAux : Nat → List Char → List Char
  | 0, s => s
  | fuel + 1, s =>
    match matchTripleNlAt s with
    | some rest => '\n' :: '\n' :: subTripleNlAux fuel rest
    | none =>
      match s with
      | [] => []
      | c :: t => c :: subTripleNlAux fuel t

/-- `filter_beaver_builder_tags` (lines 355-382). -/
def filter_beaver_builder_tags (content : List Char) : List Char :=
  if content = [] then []
  else
    let c1 := subBBCommentAux "wp:fl-builder".data true content.length content
    let c2 := subBBCommentAux "fl-builder".data false c1.length c1
    let c3 := subBBUnicodeAux "wp:fl-builder".data true c2.length c2
    let c4 := subBBUnicodeAux "fl-builder".data false c3.length c3
    pyStrip (subTripleNlAux c4.length c4)

/-! ## The CSV transformation (`transform.py` lines 521-844) -/

/-- One input CSV row, as produced by `csv.DictReader`:
column name → value. -/
abbrev Row := List (String × List Char)

/-- `row.get(key, default)`. -/
def rowGet (row : Row) (key : String) (dflt : List Char) : List Char :=
  (row.lookup key).getD dflt

/-- `choose_best_value` (lines 278-280): first truthy value. -/
def choose_best_value (v1 v2 : List Char) : List Char :=
  if v1 ≠ [] then v1 else v2

/-- The keyword arguments of `transform_csv` (lines 521-523).  Python
`None` string arguments are modelled by `[]`, which has the same
truthiness everywhere the source tests them. -/
structure TransformConfig where
  outputFile : List Char
  testMode : Bool
  categoryFilter : List Char
  tagsFilter : List Char
  layoutsFilter : List Char
  defaultLat : List Char
  defaultLng : List Char
  skipGeocoding : Bool
  filterBB : Bool
  enableDefaultAddress : Bool

/-- Filter parsing (lines 548-559): `[c.strip() for c in f.split(',')]`
when the filter is truthy. -/
def parseFilter (f : List Char) : List (List Char) :=
  if f = [] then [] else (pySplitChar ',' f).map pyStrip

/-- `use_fixed_coords` (line 574). -/
def useFixedCoords (cfg : TransformConfig) : Bool :=
  !cfg.defaultLat.isEmpty || !cfg.defaultLng.isEmpty || cfg.skipGeocoding

/-- `fixed_lat` (line 575). -/
def fixedLat (cfg : TransformConfig) : List Char :=
  if cfg.defaultLat ≠ [] then cfg.defaultLat
  else if cfg.skipGeocoding then "17.7478".data else []

/-- `fixed_lng` (line 576). -/
def fixedLng (cfg : TransformConfig) : List Char :=
  if cfg.defaultLng ≠ [] then cfg.defaultLng
  else if cfg.skipGeocoding then "-64.7059".data else []

/-- Python truthiness of `lat`/`lng` holding `None` or a string. -/
def optFalsy (o : Option String) : Bool := (o.getD "") = ""

/-- Coordinate selection for one row (lines 705-717). -/
def computeCoords (cfg : TransformConfig) (row : Row) : List Char × List Char :=
  if useFixedCoords cfg then (fixedLat cfg, fixedLng cfg)
  else
    let c := get_coordinates (pyStrip (rowGet row "acf_location" []))
    if optFalsy c.1 || optFalsy c.2 then
      (get_default_coordinates.1.data, get_default_coordinates.2.data)
    else ((c.1.getD "").data, (c.2.getD "").data)

/-- One filter check (lines 644-675): pass when the filter list is
empty or some entry occurs case-insensitively in the row value. -/
def filterPass (filterList : List (List Char)) (value : List Char) : Bool :=
  filterList.isEmpty || filterList.any (fun f => containsSub (pyLower f) (pyLower value))

/-- All three row filters (lines 644-675). -/
def rowKeep (cfg : TransformConfig) (row : Row) : Bool :=
  filterPass (parseFilter cfg.categoryFilter) (rowGet row "Categories" []) &&
  filterPass (parseFilter cfg.tagsFilter) (rowGet row "Tags" []) &&
  filterPass (parseFilter cfg.layoutsFilter) (rowGet row "acf_template_layout" [])

/-- The GeoDirectory column order, `fieldnames` (lines 606-616). -/
def fieldnames : List String :=
  ["ID", "post_title", "post_content", "post_status", "post_author",
   "post_type", "post_date", "post_modified", "post_tags", "post_category",
   "default_category", "featured", "street", "street2", "city", "region",
   "country", "zip", "latitude", "longitude", "location", "phone",
   "website", "website_url", "email_", "fixed_image", "spotlight_link",
   "featured_image_alignment", "layout", "facebook", "twitter",
   "instagram", "pinterest", "youtube", "linkedin", "trip_advisor",
   "yelp", "other_social_label", "other_social_url", "other_social_icon",
   "enable_post_tabs", "tab_1_description", "youtube_url", "youtube_urls", "post_images"]

/-- The loop body for one kept row (lines 677-808): the `output_row`
dict in its literal order (which coincides with `fieldnames`), plus the
unmapped category and tag names this row adds to the two tracker sets.
The source's `featured_image` variable (lines 685-688) is computed but
never used and is omitted. -/
def buildOutputRowFull (m : NameIdMap) (cfg : TransformConfig)
    (addressCache : List (List Char × List Char)) (row : Row) :
    List (String × List Char) × List (List Char) × List (List Char) :=
  let website := clean_url (choose_best_value (rowGet row "acf_website" [])
    (rowGet row "website_url" []))
  let gallery := choose_best_value (rowGet row "images" []) (rowGet row "slider" [])
  let cat := transform_categories_to_ids m (rowGet row "Categories" [])
  let tg := transform_tags_to_ids m (rowGet row "Tags" [])
  let defaultCategoryId := get_first_category_id cat.1
  let coords := computeCoords cfg row
  let street0 := (addressCache.lookup (pyStrip (rowGet row "Title" []))).getD []
  let street := if cfg.enableDefaultAddress ∧ street0 = [] then "123 King Street".data
                else street0
  let content := if cfg.filterBB then filter_beaver_builder_tags (rowGet row "Content" [])
                 else rowGet row "Content" []
  let jpgUrls := extract_jpg_urls_from_content content
  let ytUrls := extract_youtube_urls_from_content content
  let galleryImages := format_images_gallery gallery
  let combinedImages :=
    if galleryImages ≠ [] ∧ jpgUrls ≠ [] then galleryImages ++ "::".data ++ jpgUrls
    else if jpgUrls ≠ [] then jpgUrls
    else galleryImages
  ([("ID", rowGet row "id" []),
    ("post_title", rowGet row "Title" []),
    ("post_content", content),
    ("post_status", rowGet row "Status" "publish".data),
    ("post_author", rowGet row "Author ID" "1".data),
    ("post_type", "gd_listing_new".data),
    ("post_date", rowGet row "Date" []),
    ("post_modified", rowGet row "Post Modified Date" []),
    ("post_tags", tg.1),
    ("post_category", cat.1),
    ("default_category", defaultCategoryId),
    ("featured", "0".data),
    ("street", street),
    ("street2", []),
    ("city", "St. Croix".data),
    ("region", "VI".data),
    ("country", "United States".data),
    ("zip", []),
    ("latitude", coords.1),
    ("longitude", coords.2),
    ("location", rowGet row "acf_location" []),
    ("phone", format_phone (rowGet row "acf_phone" [])),
    ("website", website),
    ("website_url", website),
    ("email_", rowGet row "acf_email" []),
    ("fixed_image", clean_url (rowGet row "acf_fixed_image" [])),
    ("spotlight_link", clean_url (rowGet row "acf_spotlight_link" [])),
    ("featured_image_alignment", rowGet row "image_alignment" []),
    ("layout", rowGet row "acf_template_layout" []),
    ("facebook", transform_social_url "facebook" (rowGet row "acf_facebook" [])),
    ("twitter", transform_social_url "twitter" (rowGet row "acf_twitter" [])),
    ("instagram", transform_social_url "instagram" (rowGet row "acf_instagram" [])),
    ("pinterest", transform_social_url "pinterest" (rowGet row "acf_pinterest" [])),
    ("youtube", transform_social_url "youtube" (rowGet row "acf_you_tube" [])),
    ("linkedin", transform_social_url "linkedin" (rowGet row "acf_linked_in" [])),
    ("trip_advisor", transform_social_url "trip_advisor" (rowGet row "acf_trip_advisor" [])),
    ("yelp", transform_social_url "yelp" (rowGet row "acf_yelp" [])),
    ("other_social_label", rowGet row "acf_other_social_label" []),
    ("other_social_url", clean_url (rowGet row "acf_other_social_url" [])),
    ("other_social_icon", rowGet row "acf_other_social_icon" []),
    ("enable_post_tabs", if rowGet row "acf_tabs_filter" [] ≠ [] then "1".data else "0".data),
    ("tab_1_description", rowGet row "acf_tab_1_name" []),
    ("youtube_url", []),
    ("youtube_urls", ytUrls),
    ("post_images", combinedImages)],
   cat.2, tg.2)

/-- `set.add` (ignored when already present; insertion order kept for
the model). -/
def setAdd (s : List (List Char)) (x : List Char) : List (List Char) :=
  if x ∈ s then s else s ++ [x]

/-- Repeated `set.add`. -/
def setAddAll (s : List (List Char)) (xs : List (List Char)) : List (List Char) :=
  xs.foldl setAdd s

/-- The row loop of `transform_csv` (lines 630-811): returns the rows
written by `writer.writerow` and the final `unmapped_categories` /
`unmapped_tags` sets, threading `processed_count` and the two tracker
sets exactly as the source does. -/
def transformLoop (m : NameIdMap) (cfg : TransformConfig)
    (addressCache : List (List Char × List Char)) :
    List Row → Nat → List (List Char) × List (List Char) →
    List (List (String × List Char)) × List (List Char) × List (List Char)
  | [], _, uct => ([], uct.1, uct.2)
  | row :: rest, processed, uct =>
    if cfg.testMode ∧ 5 ≤ processed then ([], uct.1, uct.2)
    else if ¬ rowKeep cfg row then transformLoop m cfg addressCache rest processed uct
    else
      let r := buildOutputRowFull m cfg addressCache row
      let res := transformLoop m cfg addressCache rest (processed + 1)
        (setAddAll uct.1 r.2.1, setAddAll uct.2 r.2.2)
      (r.1 :: res.1, res.2)

/-- The observable output events of the two CLI entry points. -/
inductive Event where
  | printErr (msg : String) : Event
  | exitFatal (code : Nat) : Event
  | openOutput : Event
  | writeHeader : Event
  | writeRow (r : List (String × List Char)) : Event
  | printUnmappedCats (names : List (List Char)) : Event
  | printUnmappedTags (names : List (List Char)) : Event
  | printValues (values : List (List Char)) : Event
deriving DecidableEq

/-- `use_stdout` (line 579). -/
def useStdout (cfg : TransformConfig) : Bool :=
  cfg.outputFile.isEmpty || cfg.outputFile == "-".data

/-- The file-system and output behaviour of `transform_csv` (lines
521-844), with stderr progress messages omitted: the missing-input
check (lines 542-545) runs before the output file is opened (line 624)
and anything is written; the unmapped-name warnings (lines 824-828) are
printed after all rows. -/
def transformCsvTrace (inputExists : Bool) (inputFile : String) (m : NameIdMap)
    (cfg : TransformConfig) (addressCache : List (List Char × List Char))
    (rows : List Row) : List Event :=
  if ¬ inputExists then
    [Event.printErr ("❌ Error: Input file not found: " ++ inputFile), Event.exitFatal 1]
  else
    let r := transformLoop m cfg addressCache rows 0 ([], [])
    (if useStdout cfg then [] else [Event.openOutput]) ++
    Event.writeHeader :: r.1.map Event.writeRow ++
    (if r.2.1 ≠ [] then [Event.printUnmappedCats (sortLex r.2.1)] else []) ++
    (if r.2.2 ≠ [] then [Event.printUnmappedTags (sortLex r.2.2)] else [])

/-- The unique-value collection of `list_unique_values` (lines
984-1014): per-row comma/pipe splitting into a set, empty values
discarded, sorted by lowercase. -/
def collectUniqueValues (fieldName : String) (rows : List Row) : List (List Char) :=
  let s := rows.foldl (fun acc row =>
    let value := pyStrip (rowGet row fieldName [])
    if value = [] then acc
    else if ',' ∈ value then setAddAll acc ((pySplitChar ',' value).map pyStrip)
    else if '|' ∈ value then setAddAll acc ((pySplitChar '|' value).map pyStrip)
    else setAdd acc value) []
  sortByLower (s.filter (· ≠ []))

/-- The observable behaviour of `list_unique_values` (lines 969-1025). -/
def listUniqueValuesTrace (inputExists : Bool) (inputFile : String)
    (fieldName : String) (headerFields : List String) (rows : List Row) : List Event :=
  if ¬ inputExists then
    [Event.printErr ("❌ Error: Input file not found: " ++ inputFile), Event.exitFatal 1]
  else if fieldName ∉ headerFields then
    [Event.printErr ("❌ Error: Field '" ++ fieldName ++ "' not found in CSV"),
     Event.exitFatal 1]
  else [Event.printValues (collectUniqueValues fieldName rows)]

/-- The ids produced by a list of names, in order before
deduplication: strip each name, skip empties, resolve each (exact,
then title-case, then fallback). -/
def resolveAll (m : NameIdMap) (mapType : String) (fallbackId : Nat)
    (ns : List (List Char)) : List Nat :=
  ((ns.map pyStrip).filter (· ≠ [])).map
    (fun s => (resolveName m mapType fallbackId s).1)

/-- The ids produced by the names of `text`, in text order before
deduplication.  Used to state what `transform_names_to_ids` collects. -/
def mappedIds (m : NameIdMap) (mapType : String) (fallbackId : Nat)
    (separators text : List Char) : List Nat :=
  resolveAll m mapType fallbackId (pySplitAny separators text)

/-! ## General helper lemmas -/

/-- A successful association-list lookup means the key/value pair is in
the list. -/
theorem lookup_mem {α β : Type} [BEq α] [LawfulBEq α] {k : α} {v : β} :
    ∀ {l : List (α × β)}, l.lookup k = some v → (k, v) ∈ l := by
  intro l
  induction l with
  | nil => intro h; simp [List.lookup] at h
  | cons p rest ih =>
    intro h
    rcases p with ⟨a, b⟩
    by_cases hk : k == a
    · have hk' : k = a := by simpa using hk
      simp only [List.lookup, hk] at h
      subst hk'
      simp_all
    · simp only [List.lookup, Bool.of_not_eq_true hk] at h
      exact List.mem_cons_of_mem _ (ih h)

/-! ## Claim C5: phone normalization -/

/-- C5: `format_phone` groups a 10-digit number (after removing all
non-digit characters) as `XXX-XXX-XXXX`, prepends the 340 St. Croix
area code to a 7-digit number, returns any other non-empty input
unchanged, and maps the empty input to the empty output. -/
theorem format_phone_spec (phone : List Char) :
    (format_phone [] = []) ∧
    (∀ a b c d e f g h i j : Char,
      phone.filter Char.isDigit = [a, b, c, d, e, f, g, h, i, j] →
      format_phone phone = [a, b, c, '-', d, e, f, '-', g, h, i, j]) ∧
    (∀ a b c d e f g : Char,
      phone.filter Char.isDigit = [a, b, c, d, e, f, g] →
      format_phone phone = ['3', '4', '0', '-', a, b, c, '-', d, e, f, g]) ∧
    (phone ≠ [] → (phone.filter Char.isDigit).length ≠ 10 →
      (phone.filter Char.isDigit).length ≠ 7 → format_phone phone = phone) := by
  refine ⟨rfl, ?_, ?_, ?_⟩
  · intro a b c d e f g h i j hd
    have hne : phone ≠ [] := by
      intro h0
      rw [h0] at hd
      simp at hd
    simp [format_phone, hne, hd]
  · intro a b c d e f g hd
    have hne : phone ≠ [] := by
      intro h0
      rw [h0] at hd
      simp at hd
    simp [format_phone, hne, hd]
  · intro hne h10 h7
    simp [format_phone, hne, h10, h7]

/-- Witness for C5 at concrete inputs. -/
theorem format_phone_spec_witness :
    format_phone "(340) 555-1234".data = "340-555-1234".data ∧
    format_phone "5551234".data = "340-555-1234".data ∧
    format_phone "123".data = "123".data := by
  refine ⟨?_, ?_, ?_⟩
  · exact ((format_phone_spec "(340) 555-1234".data).2.1
      '3' '4' '0' '5' '5' '5' '1' '2' '3' '4' (by decide)).trans (by decide)
  · exact ((format_phone_spec "5551234".data).2.2.1
      '5' '5' '5' '1' '2' '3' '4' (by decide)).trans (by decide)
  · exact (format_phone_spec "123".data).2.2.2 (by decide) (by decide) (by decide)

/-! ## Claim C3: location coordinates -/

/-- C3: `get_coordinates` returns the gazetteer pair whenever the
lowercased, stripped location is a key of `LOCATION_COORDS`; it returns
`(none, none)` for the empty string and for any string whose lowered
stripped form contains no known location name as a substring, and in
the latter cases `transform_csv` substitutes the default St. Croix
center coordinates `('17.7478', '-64.7059')`. -/
theorem get_coordinates_spec :
    (∀ s p, LOCATION_COORDS.lookup (pyStrip (pyLower s)) = some p →
      get_coordinates s = (some p.1, some p.2)) ∧
    get_coordinates [] = (none, none) ∧
    (∀ s, (∀ kv ∈ LOCATION_COORDS, ¬ kv.1 <:+: pyStrip (pyLower s)) →
      get_coordinates s = (none, none)) ∧
    (∀ cfg row, useFixedCoords cfg = false →
      get_coordinates (pyStrip (rowGet row "acf_location" [])) = (none, none) →
      computeCoords cfg row = ("17.7478".data, "-64.7059".data)) := by
  refine ⟨?_, rfl, ?_, ?_⟩
  · intro s p hl
    by_cases hs : s = []
    · subst hs
      have h0 : LOCATION_COORDS.lookup (pyStrip (pyLower [])) = none := by decide
      rw [h0] at hl
      exact absurd hl (by simp)
    · simp only [get_coordinates, if_neg hs, hl]
  · intro s hni
    by_cases hs : s = []
    · subst hs; rfl
    · have hlk : LOCATION_COORDS.lookup (pyStrip (pyLower s)) = none := by
        cases h : LOCATION_COORDS.lookup (pyStrip (pyLower s)) with
        | none => rfl
        | some p => exact absurd (List.infix_refl _) (hni _ (lookup_mem h))
      have hfd : LOCATION_COORDS.find?
          (fun kv => containsSub kv.1 (pyStrip (pyLower s))) = none := by
        apply List.find?_eq_none.mpr
        intro kv hkv
        simp only [containsSub, decide_eq_true_eq]
        exact hni kv hkv
      simp only [get_coordinates, if_neg hs, hlk, hfd]
  · intro cfg row hfix hnone
    simp [computeCoords, hfix, hnone, optFalsy, get_default_coordinates]

/-- Witness for C3 at concrete inputs. -/
theorem get_coordinates_spec_witness :
    get_coordinates " Christiansted ".data = (some "17.7475", some "-64.7011") ∧
    get_coordinates "NoWhere".data = (none, none) ∧
    computeCoords ⟨[], false, [], [], [], [], [], false, false, false⟩ [] =
      ("17.7478".data, "-64.7059".data) := by
  refine ⟨?_, ?_, ?_⟩
  · exact get_coordinates_spec.1 " Christiansted ".data ("17.7475", "-64.7011") (by decide)
  · exact get_coordinates_spec.2.2.1 "NoWhere".data (by decide)
  · exact get_coordinates_spec.2.2.2 ⟨[], false, [], [], [], [], [], false, false, false⟩
      [] (by decide) (by decide)

/-! ## String-stripping lemmas -/

/-- `pyRStrip` is Mathlib's `rdropWhile`. -/
theorem pyRStrip_eq (s : List Char) :
    pyRStrip s = List.rdropWhile Char.isWhitespace s := rfl

/-- The head of `dropWhile p` does not satisfy `p`. -/
theorem head?_dropWhile_false {p : Char → Bool} (x : List Char) :
    ∀ c, (List.dropWhile p x).head? = some c → p c = false := by
  induction x with
  | nil => intro c hc; simp at hc
  | cons a t ih =>
    intro c hc
    by_cases ha : p a
    · rw [List.dropWhile_cons_of_pos ha] at hc
      exact ih c hc
    · rw [List.dropWhile_cons_of_neg ha] at hc
      simp at hc
      subst hc
      simpa using ha

/-- The first character of a stripped string is not whitespace. -/
theorem headNotWs_pyStrip (x : List Char) :
    ∀ c, (pyStrip x).head? = some c → c.isWhitespace = false := by
  intro c hc
  obtain ⟨t, ht⟩ : ∃ t, pyStrip x = c :: t := by
    cases h : pyStrip x with
    | nil => rw [h] at hc; simp at hc
    | cons a t => rw [h] at hc; simp at hc; exact ⟨t, by rw [hc]⟩
  have hpre : pyStrip x <+: pyLStrip x := List.rdropWhile_prefix _ _
  rw [ht] at hpre
  obtain ⟨u, hu⟩ := hpre
  apply head?_dropWhile_false x c
  show (pyLStrip x).head? = some c
  rw [← hu]
  simp

/-- The last character of a stripped string is not whitespace. -/
theorem lastNotWs_pyStrip (x : List Char) :
    ∀ c, (pyStrip x).getLast? = some c → c.isWhitespace = false := by
  intro c hc
  have hne : pyStrip x ≠ [] := by intro h0; rw [h0] at hc; simp at hc
  have h2 := List.rdropWhile_last_not Char.isWhitespace (pyLStrip x)
    (show (pyLStrip x).rdropWhile Char.isWhitespace ≠ [] from hne)
  rw [List.getLast?_eq_getLast_of_ne_nil hne] at hc
  have hcc : (pyStrip x).getLast hne = c := by injection hc
  rw [show (List.rdropWhile Char.isWhitespace (pyLStrip x)).getLast _ =
    (pyStrip x).getLast hne from rfl, hcc] at h2
  simpa using h2

/-- A string with non-whitespace first and last characters is fixed by
`pyStrip`. -/
theorem pyStrip_eq_self {l : List Char}
    (h1 : ∀ c, l.head? = some c → c.isWhitespace = false)
    (h2 : ∀ c, l.getLast? = some c → c.isWhitespace = false) :
    pyStrip l = l := by
  cases l with
  | nil => rfl
  | cons a t =>
    have ha : a.isWhitespace = false := h1 a rfl
    have hl : pyLStrip (a :: t) = a :: t := by
      simp [pyLStrip, List.dropWhile_cons, ha]
    show List.rdropWhile Char.isWhitespace (pyLStrip (a :: t)) = a :: t
    rw [hl, List.rdropWhile_eq_self_iff]
    intro hne
    have := h2 _ (List.getLast?_eq_getLast_of_ne_nil hne)
    simp [this]

/-- `pyStrip` is idempotent. -/
theorem pyStrip_pyStrip (x : List Char) : pyStrip (pyStrip x) = pyStrip x :=
  pyStrip_eq_self (headNotWs_pyStrip x) (lastNotWs_pyStrip x)

/-- `replace(old, new, 1)` on a string that starts with `old`. -/
theorem pyReplaceFirst_of_prefix (old new s : List Char)
    (h : old.isPrefixOf s = true) (hold : old ≠ []) :
    pyReplaceFirst old new s = new ++ s.drop old.length := by
  cases s with
  | nil =>
    cases old with
    | nil => exact absurd rfl hold
    | cons a t => simp [List.isPrefixOf] at h
  | cons c t => simp [pyReplaceFirst, h]

theorem https_isPrefixOf_append (r : List Char) :
    "https://".data.isPrefixOf ("https://".data ++ r) = true := by
  rw [List.isPrefixOf_iff_prefix]
  exact List.prefix_append _ _

theorem http_not_isPrefixOf_https (r : List Char) :
    "http://".data.isPrefixOf ("https://".data ++ r) = false := by
  simp [List.isPrefixOf]

theorem https_append_ne_nil (r : List Char) : "https://".data ++ r ≠ [] := by simp

theorem https_append_head? (r : List Char) :
    ("https://".data ++ r).head? = some 'h' := rfl

/-! ## Claim C2: social URL transformation -/

/-- C2 as stated is false on the `linkedin` platform (which is in
`SOCIAL_MEDIA_URLS`): for the non-URL value `john-doe` the code inserts
`in/` rather than prepending the base URL to the cleaned username. -/
theorem transform_social_url_counterexample :
    transform_social_url "linkedin" "john-doe".data =
      "https://www.linkedin.com/in/john-doe".data ∧
    "https://www.linkedin.com/in/john-doe".data ≠
      "https://www.linkedin.com/".data ++ socialUsername (pyStrip "john-doe".data) := by
  constructor
  · decide
  · decide

/-- C2 (amended): `transform_social_url 'facebook' 'VacationSTX'`
returns `https://www.facebook.com/VacationSTX`; and for every platform
of `SOCIAL_MEDIA_URLS` other than `linkedin` and every value that
(after whitespace stripping) is not an `http://`/`https://` URL and
whose cleaned form (whitespace stripped, trailing slashes and leading
`@` removed, stripped again) is non-empty, the result is the platform's
base URL followed by the cleaned username. -/
theorem transform_social_url_spec (platform : String) (base : String) (value : List Char)
    (hp : SOCIAL_MEDIA_URLS.lookup platform = some base)
    (hnl : platform ≠ "linkedin")
    (h1 : "http://".data.isPrefixOf (pyStrip value) = false)
    (h2 : "https://".data.isPrefixOf (pyStrip value) = false)
    (hcl : socialUsername (pyStrip value) ≠ []) :
    transform_social_url platform value = base.data ++ socialUsername (pyStrip value) ∧
    transform_social_url "facebook" "VacationSTX".data =
      "https://www.facebook.com/VacationSTX".data := by
  constructor
  · have hv : value ≠ [] := by
      intro h0
      subst h0
      exact hcl (by decide)
    have hvs : pyStrip value ≠ [] := by
      intro h0
      rw [h0] at hcl
      exact hcl (by decide)
    simp [transform_social_url, hv, hvs, h1, h2, hnl, hcl, hp]
  · decide

/-- Witness for C2 at the concrete test-suite input. -/
theorem transform_social_url_spec_witness :
    transform_social_url "facebook" "VacationSTX".data =
      "https://www.facebook.com/VacationSTX".data := by
  have h := transform_social_url_spec "facebook" "https://www.facebook.com/"
    "VacationSTX".data (by decide) (by decide) (by decide) (by decide) (by decide)
  exact h.2

/-! ## Claim C9: idempotence of the social URL transformation -/

/-- An `https://`-prefixed string whose tail ends in non-whitespace is
fixed by `pyStrip`. -/
theorem pyStrip_https_append (r : List Char)
    (hr : ∀ c, r.getLast? = some c → c.isWhitespace = false) :
    pyStrip ("https://".data ++ r) = "https://".data ++ r := by
  apply pyStrip_eq_self
  · intro c hc
    rw [https_append_head?] at hc
    injection hc with hc
    subst hc
    decide
  · intro c hc
    by_cases hd : r = []
    · subst hd
      rw [show (("https://".data ++ ([] : List Char)).getLast? : Option Char) =
        some '/' by decide] at hc
      injection hc with hc
      subst hc
      decide
    · rw [List.getLast?_append_of_ne_nil _ hd] at hc
      exact hr c hc

/-- The last character of any tail of a stripped string is not
whitespace. -/
theorem getLast?_drop_pyStrip (n : Nat) (x : List Char) :
    ∀ c, ((pyStrip x).drop n).getLast? = some c → c.isWhitespace = false := by
  intro c hc
  have hd : (pyStrip x).drop n ≠ [] := by
    intro h0
    rw [h0] at hc
    simp at hc
  have hlast : (pyStrip x).getLast? = some c := by
    conv_lhs => rw [← List.take_append_drop n (pyStrip x)]
    rw [List.getLast?_append_of_ne_nil _ hd]
    exact hc
  exact lastNotWs_pyStrip x c hlast

/-- For a platform of the table, every output of
`transform_social_url` is empty or an `https://`-prefixed string fixed
by `pyStrip`. -/
theorem transform_social_url_out_shape (platform : String) (base : String)
    (hp : SOCIAL_MEDIA_URLS.lookup platform = some base) (value : List Char) :
    transform_social_url platform value = [] ∨
      ((∃ r, transform_social_url platform value = "https://".data ++ r) ∧
       pyStrip (transform_social_url platform value) =
         transform_social_url platform value) := by
  by_cases h0 : value = []
  · left
    simp [transform_social_url, h0]
  by_cases hv : pyStrip value = []
  · left
    simp [transform_social_url, h0, hv]
  by_cases hh1 : "http://".data.isPrefixOf (pyStrip value) = true
  · right
    have hrw : transform_social_url platform value =
        "https://".data ++ (pyStrip value).drop 7 := by
      have hrep := pyReplaceFirst_of_prefix "http://".data "https://".data
        (pyStrip value) hh1 (by decide)
      simp [transform_social_url, h0, hv, hh1, hrep]
    rw [hrw]
    exact ⟨⟨_, rfl⟩, pyStrip_https_append _ (getLast?_drop_pyStrip 7 value)⟩
  by_cases hh2 : "https://".data.isPrefixOf (pyStrip value) = true
  · right
    have hrw : transform_social_url platform value = pyStrip value := by
      simp [transform_social_url, h0, hv, hh1, hh2]
    rw [hrw]
    obtain ⟨r, hr⟩ := List.isPrefixOf_iff_prefix.mp hh2
    exact ⟨⟨r, hr.symm⟩, pyStrip_pyStrip value⟩
  by_cases hun : socialUsername (pyStrip value) = []
  · left
    simp [transform_social_url, h0, hv, hh1, hh2, hun]
  · right
    have hulast : ∀ c, (socialUsername (pyStrip value)).getLast? = some c →
        c.isWhitespace = false := fun c hc => lastNotWs_pyStrip _ c hc
    by_cases hlk : platform = "linkedin"
    · subst hlk
      by_cases hpre : ("in/".data <+: socialUsername (pyStrip value) ∨
          "company/".data <+: socialUsername (pyStrip value))
      · have hrw : transform_social_url "linkedin" value =
            "https://".data ++ ("www.linkedin.com/".data ++ socialUsername (pyStrip value)) := by
          simp [transform_social_url, h0, hv, hh1, hh2, hun, hpre]
        rw [hrw]
        refine ⟨⟨_, rfl⟩, pyStrip_https_append _ ?_⟩
        intro c hc
        rw [List.getLast?_append_of_ne_nil _ hun] at hc
        exact hulast c hc
      · push_neg at hpre
        have hrw : transform_social_url "linkedin" value =
            "https://".data ++ (("www.linkedin.com/".data ++ "in/".data) ++
              socialUsername (pyStrip value)) := by
          simp [transform_social_url, h0, hv, hh1, hh2, hun, hpre.1, hpre.2]
        rw [hrw]
        refine ⟨⟨_, rfl⟩, pyStrip_https_append _ ?_⟩
        intro c hc
        rw [List.getLast?_append_of_ne_nil _ hun] at hc
        exact hulast c hc
    · have hbp : "https://".data.isPrefixOf base.data = true := by
        have hall : ∀ pr ∈ SOCIAL_MEDIA_URLS,
            "https://".data.isPrefixOf pr.2.data = true := by decide
        exact hall _ (lookup_mem hp)
      obtain ⟨w, hw⟩ := List.isPrefixOf_iff_prefix.mp hbp
      have hrw : transform_social_url platform value =
          "https://".data ++ (w ++ socialUsername (pyStrip value)) := by
        simp only [transform_social_url, if_neg h0, if_neg hv]
        simp [hh1, hh2, hun, hlk, hp, ← hw, List.append_assoc]
      rw [hrw]
      refine ⟨⟨_, rfl⟩, pyStrip_https_append _ ?_⟩
      intro c hc
      rw [List.getLast?_append_of_ne_nil _ hun] at hc
      exact hulast c hc

/-- C9: for every platform in `SOCIAL_MEDIA_URLS`,
`transform_social_url` is idempotent: every non-empty output begins
with `https://` (with no surrounding whitespace) and inputs beginning
with `https://` are returned unchanged. -/
theorem transform_social_url_idempotent (platform : String) (base : String)
    (hp : SOCIAL_MEDIA_URLS.lookup platform = some base) (value : List Char) :
    transform_social_url platform (transform_social_url platform value) =
      transform_social_url platform value := by
  rcases transform_social_url_out_shape platform base hp value with h | ⟨⟨r, hr⟩, hfix⟩
  · rw [h]
    simp [transform_social_url]
  · rw [hr] at hfix ⊢
    have hn1 : ¬ ("http://".data <+: ("https://".data ++ r)) := by
      intro h
      rw [← List.isPrefixOf_iff_prefix, http_not_isPrefixOf_https r] at h
      exact absurd h (by decide)
    have hn2 : "https://".data <+: ("https://".data ++ r) := List.prefix_append _ _
    have hfix' : pyStrip ('h' :: 't' :: 't' :: 'p' :: 's' :: ':' :: '/' :: '/' :: r) =
        'h' :: 't' :: 't' :: 'p' :: 's' :: ':' :: '/' :: '/' :: r := hfix
    have hn1' : ¬ ['h', 't', 't', 'p', ':', '/', '/'] <+:
        'h' :: 't' :: 't' :: 'p' :: 's' :: ':' :: '/' :: '/' :: r := hn1
    have hn2' : ['h', 't', 't', 'p', 's', ':', '/', '/'] <+:
        'h' :: 't' :: 't' :: 'p' :: 's' :: ':' :: '/' :: '/' :: r := hn2
    have hne' : ('h' :: 't' :: 't' :: 'p' :: 's' :: ':' :: '/' :: '/' :: r) ≠ [] := by simp
    simp [transform_social_url, hne', hfix', hn1', hn2']

/-- Witness for C9 at a concrete platform and value. -/
theorem transform_social_url_idempotent_witness :
    transform_social_url "twitter" (transform_social_url "twitter" "@handle".data) =
      transform_social_url "twitter" "@handle".data :=
  transform_social_url_idempotent "twitter" "https://twitter.com/" (by decide) "@handle".data

/-! ## Dedup, digit and split/join lemmas -/

/-- Members of a `dedupSeen` result are list members outside `seen`. -/
theorem dedupSeen_mem {α : Type} [DecidableEq α] :
    ∀ (l : List α) (seen : List α) (a : α),
      a ∈ dedupSeen seen l → a ∈ l ∧ a ∉ seen := by
  intro l
  induction l with
  | nil => intro seen a ha; simp [dedupSeen] at ha
  | cons b t ih =>
    intro seen a ha
    rw [dedupSeen] at ha
    by_cases hb : b ∈ seen
    · rw [if_pos hb] at ha
      obtain ⟨h1, h2⟩ := ih seen a ha
      exact ⟨List.mem_cons_of_mem _ h1, h2⟩
    · rw [if_neg hb] at ha
      rcases List.mem_cons.mp ha with rfl | ha'
      · exact ⟨List.mem_cons_self _ _, hb⟩
      · obtain ⟨h1, h2⟩ := ih (b :: seen) a ha'
        exact ⟨List.mem_cons_of_mem _ h1, fun hs => h2 (List.mem_cons_of_mem _ hs)⟩

/-- `dedupSeen` produces a duplicate-free list. -/
theorem dedupSeen_nodup {α : Type} [DecidableEq α] :
    ∀ (l : List α) (seen : List α), (dedupSeen seen l).Nodup := by
  intro l
  induction l with
  | nil => intro seen; simp [dedupSeen]
  | cons b t ih =>
    intro seen
    rw [dedupSeen]
    by_cases hb : b ∈ seen
    · rw [if_pos hb]
      exact ih seen
    · rw [if_neg hb]
      refine List.nodup_cons.mpr ⟨?_, ih (b :: seen)⟩
      intro hmem
      exact (dedupSeen_mem _ _ _ hmem).2 (List.mem_cons_self _ _)

/-- The decimal digit characters are digits. -/
theorem digitChar_isDigit : ∀ m, m < 10 → (Char.ofNat (48 + m)).isDigit = true := by
  intro m hm
  interval_cases m <;> decide

/-- `natDigitsAux` is never empty. -/
theorem natDigitsAux_ne_nil : ∀ fuel n, natDigitsAux fuel n ≠ [] := by
  intro fuel
  induction fuel with
  | zero => intro n; simp [natDigitsAux]
  | succ f _ =>
    intro n
    rw [natDigitsAux]
    split <;> simp

/-- `natDigits` is never empty. -/
theorem natDigits_ne_nil (n : Nat) : natDigits n ≠ [] := natDigitsAux_ne_nil n n

/-- Every character of `natDigitsAux` is a digit. -/
theorem natDigitsAux_all_digit : ∀ fuel n, ∀ c ∈ natDigitsAux fuel n, c.isDigit = true := by
  intro fuel
  induction fuel with
  | zero =>
    intro n c hc
    simp [natDigitsAux] at hc
    subst hc
    exact digitChar_isDigit _ (Nat.mod_lt _ (by omega))
  | succ f ih =>
    intro n c hc
    rw [natDigitsAux] at hc
    split at hc
    · next h =>
      simp at hc
      subst hc
      exact digitChar_isDigit n h
    · next h =>
      simp at hc
      rcases hc with hc | hc
      · exact ih (n / 10) c hc
      · subst hc
        exact digitChar_isDigit _ (Nat.mod_lt _ (by omega))

/-- Every character of `natDigits` is a digit. -/
theorem natDigits_all_digit (n : Nat) : ∀ c ∈ natDigits n, c.isDigit = true :=
  natDigitsAux_all_digit n n

/-- Digits are not whitespace. -/
theorem isDigit_not_ws {c : Char} (h : c.isDigit = true) : c.isWhitespace = false := by
  by_contra hw
  rw [Bool.not_eq_false] at hw
  simp [Char.isWhitespace] at hw
  rcases hw with ((h1 | h1) | h1) | h1 <;> (subst h1; exact absurd h (by decide))

/-- Digits are not commas. -/
theorem isDigit_ne_comma {c : Char} (h : c.isDigit = true) : c ≠ ',' := by
  intro hc
  subst hc
  exact absurd h (by decide)

/-- A string of digits is fixed by `pyStrip`. -/
theorem pyStrip_of_all_digit {p : List Char} (h : ∀ c ∈ p, c.isDigit = true) :
    pyStrip p = p := by
  apply pyStrip_eq_self
  · intro c hc
    exact isDigit_not_ws (h c (List.mem_of_mem_head? hc))
  · intro c hc
    exact isDigit_not_ws (h c (List.mem_of_getLast?_eq_some hc))

/-- Splitting a separator-free string is the identity. -/
theorem pySplitChar_sep_not_mem (sep : Char) :
    ∀ (p : List Char), sep ∉ p → pySplitChar sep p = [p] := by
  intro p
  induction p with
  | nil => intro _; rfl
  | cons c t ih =>
    intro h
    rw [pySplitChar, if_neg (fun hc : c = sep => h (hc ▸ List.mem_cons_self _ _)),
      ih (fun hm => h (List.mem_cons_of_mem _ hm))]

/-- Splitting `p ++ sep :: t` peels off the separator-free `p`. -/
theorem pySplitChar_append_sep (sep : Char) :
    ∀ (p t : List Char), sep ∉ p →
      pySplitChar sep (p ++ sep :: t) = p :: pySplitChar sep t := by
  intro p
  induction p with
  | nil => intro t _; simp [pySplitChar]
  | cons c cs ih =>
    intro t h
    rw [List.cons_append, pySplitChar,
      if_neg (fun hc : c = sep => h (hc ▸ List.mem_cons_self _ _)),
      ih t (fun hm => h (List.mem_cons_of_mem _ hm))]

/-- `joinChar` on a multi-element list. -/
theorem joinChar_cons_cons (sep : Char) (p q : List Char) (qs : List (List Char)) :
    joinChar sep (p :: q :: qs) = p ++ sep :: joinChar sep (q :: qs) := rfl

/-- `split` undoes `join` on separator-free parts. -/
theorem pySplitChar_joinChar (sep : Char) :
    ∀ (parts : List (List Char)), parts ≠ [] → (∀ p ∈ parts, sep ∉ p) →
      pySplitChar sep (joinChar sep parts) = parts := by
  intro parts
  induction parts with
  | nil => intro h; exact absurd rfl h
  | cons p ps ih =>
    intro _ hsep
    cases ps with
    | nil => exact pySplitChar_sep_not_mem sep p (hsep p (List.mem_cons_self _ _))
    | cons q qs =>
      rw [joinChar_cons_cons,
        pySplitChar_append_sep sep p _ (hsep p (List.mem_cons_self _ _)),
        ih (by simp) (fun r hr => hsep r (List.mem_cons_of_mem _ hr))]

/-- `joinChar` of nonempty parts is nonempty. -/
theorem joinChar_ne_nil (sep : Char) (p : List Char) (ps : List (List Char))
    (hp : p ≠ []) : joinChar sep (p :: ps) ≠ [] := by
  cases ps with
  | nil => exact hp
  | cons q qs =>
    rw [joinChar_cons_cons]
    intro h
    rcases List.append_eq_nil.mp h with ⟨_, h2⟩
    simp at h2

/-- The head of `joinChar` is the head of the first part. -/
theorem joinChar_head? (sep : Char) (p : List Char) (ps : List (List Char))
    (hp : p ≠ []) : (joinChar sep (p :: ps)).head? = p.head? := by
  cases ps with
  | nil => rfl
  | cons q qs =>
    rw [joinChar_cons_cons]
    cases p with
    | nil => exact absurd rfl hp
    | cons a t => rfl

/-- The last character of a join of non-empty digit strings is a
digit. -/
theorem joinChar_digits_getLast (sep : Char) :
    ∀ (parts : List (List Char)),
      (∀ p ∈ parts, p ≠ [] ∧ ∀ c ∈ p, c.isDigit = true) →
      ∀ c, (joinChar sep parts).getLast? = some c → c.isDigit = true := by
  intro parts
  induction parts with
  | nil => intro _ c hc; simp [joinChar] at hc
  | cons p ps ih =>
    intro hp c hc
    cases ps with
    | nil =>
      exact (hp p (List.mem_cons_self _ _)).2 c (List.mem_of_getLast?_eq_some hc)
    | cons q qs =>
      rw [joinChar_cons_cons] at hc
      have hj : joinChar sep (q :: qs) ≠ [] :=
        joinChar_ne_nil sep q qs (hp q (List.mem_cons_of_mem _ (List.mem_cons_self _ _))).1
      rw [List.getLast?_append_of_ne_nil _ (by simp)] at hc
      rw [show sep :: joinChar sep (q :: qs) = [sep] ++ joinChar sep (q :: qs) from rfl,
        List.getLast?_append_of_ne_nil _ hj] at hc
      exact ih (fun r hr => hp r (List.mem_cons_of_mem _ hr)) c hc

/-! ## `transform_names_to_ids` characterization -/

/-- The ids collected by the name loop are the first-occurrence dedup
of the resolved ids. -/
theorem collectIds_fst (m : NameIdMap) (mt : String) (fb : Nat) :
    ∀ (ns : List (List Char)) (acc : List Nat),
      (collectIds m mt fb acc ns).1 = dedupSeen acc (resolveAll m mt fb ns) := by
  intro ns
  induction ns with
  | nil => intro acc; rfl
  | cons n t ih =>
    intro acc
    by_cases hs : pyStrip n = []
    · rw [show resolveAll m mt fb (n :: t) = resolveAll m mt fb t by
        simp [resolveAll, hs]]
      simp only [collectIds, if_pos hs]
      exact ih acc
    · have hres : resolveAll m mt fb (n :: t) =
          (resolveName m mt fb (pyStrip n)).1 :: resolveAll m mt fb t := by
        simp [resolveAll, hs]
      rw [hres]
      by_cases hmem : (resolveName m mt fb (pyStrip n)).1 ∈ acc
      · simp only [collectIds, if_neg hs, if_pos hmem, dedupSeen, if_pos hmem]
        exact ih acc
      · simp only [collectIds, if_neg hs, if_neg hmem, dedupSeen]
        exact congrArg _ (ih _)

/-- Every unmapped non-empty stripped name in the list lands in the
returned tracker additions. -/
theorem collectIds_unmapped_mem (m : NameIdMap) (mt : String) (fb : Nat) :
    ∀ (ns : List (List Char)) (acc : List Nat) (n : List Char), n ∈ ns →
      pyStrip n ≠ [] → (resolveName m mt fb (pyStrip n)).2 = true →
      pyStrip n ∈ (collectIds m mt fb acc ns).2 := by
  intro ns
  induction ns with
  | nil => intro acc n h; simp at h
  | cons b t ih =>
    intro acc n hn hne hmiss
    rcases List.mem_cons.mp hn with rfl | hn'
    · by_cases hmem : (resolveName m mt fb (pyStrip n)).1 ∈ acc <;>
        simp [collectIds, hne, hmiss, hmem]
    · by_cases hsb : pyStrip b = []
      · simp only [collectIds, if_pos hsb]
        exact ih acc n hn' hne hmiss
      · by_cases hmem : (resolveName m mt fb (pyStrip b)).1 ∈ acc
        · simp only [collectIds, if_neg hsb, if_pos hmem]
          exact List.mem_append_right _ (ih acc n hn' hne hmiss)
        · simp only [collectIds, if_neg hsb, if_neg hmem]
          exact List.mem_append_right _ (ih _ n hn' hne hmiss)

/-- A string strips to empty iff all its characters are whitespace. -/
theorem pyStrip_eq_nil_iff (s : List Char) :
    pyStrip s = [] ↔ ∀ c ∈ s, c.isWhitespace = true := by
  constructor
  · intro h c hc
    have hdw : ∀ x ∈ List.dropWhile Char.isWhitespace s, x.isWhitespace = true := by
      have := List.rdropWhile_eq_nil_iff.mp (show
        (List.dropWhile Char.isWhitespace s).rdropWhile Char.isWhitespace = [] from h)
      simpa using this
    rcases List.mem_append.mp (by
        rw [List.takeWhile_append_dropWhile]
        exact hc :
        c ∈ List.takeWhile Char.isWhitespace s ++ List.dropWhile Char.isWhitespace s)
      with h1 | h1
    · exact List.mem_takeWhile_imp h1
    · exact hdw c h1
  · intro h
    have hdw : List.dropWhile Char.isWhitespace s = [] :=
      List.dropWhile_eq_nil_iff.mpr h
    show List.rdropWhile Char.isWhitespace (List.dropWhile Char.isWhitespace s) = []
    rw [hdw]
    simp

/-- Characters of split pieces come from the split string. -/
theorem pySplitAny_sub (seps : List Char) :
    ∀ (text p : List Char), p ∈ pySplitAny seps text → ∀ c ∈ p, c ∈ text := by
  intro text
  induction text with
  | nil =>
    intro p hp c hc
    simp [pySplitAny] at hp
    subst hp
    simp at hc
  | cons a t ih =>
    intro p hp c hc
    rw [pySplitAny] at hp
    by_cases ha : a ∈ seps
    · rw [if_pos ha] at hp
      rcases List.mem_cons.mp hp with rfl | hp'
      · simp at hc
      · exact List.mem_cons_of_mem _ (ih p hp' c hc)
    · rw [if_neg ha] at hp
      cases hsp : pySplitAny seps t with
      | nil =>
        rw [hsp] at hp
        simp at hp
        subst hp
        simp at hc
        subst hc
        exact List.mem_cons_self _ _
      | cons q qs =>
        rw [hsp] at hp
        simp only [] at hp
        rcases List.mem_cons.mp hp with rfl | hp'
        · rcases List.mem_cons.mp hc with rfl | hc'
          · exact List.mem_cons_self _ _
          · exact List.mem_cons_of_mem _
              (ih q (by rw [hsp]; exact List.mem_cons_self _ _) c hc')
        · exact List.mem_cons_of_mem _
            (ih p (by rw [hsp]; exact List.mem_cons_of_mem _ hp') c hc)

/-- The formatted id string strips (on commas) back to the joined
ids. -/
theorem stripChar_comma_wrap (inner : List Char) (hne : inner ≠ [])
    (hhead : ∀ c, inner.head? = some c → c.isDigit = true)
    (hlast : ∀ c, inner.getLast? = some c → c.isDigit = true) :
    stripChar ',' (',' :: (inner ++ [','])) = inner := by
  obtain ⟨c0, t0, hin⟩ : ∃ c0 t0, inner = c0 :: t0 := by
    cases hj : inner with
    | nil => exact absurd hj hne
    | cons a b => exact ⟨a, b, rfl⟩
  have hc0 : c0.isDigit = true := hhead c0 (by rw [hin]; rfl)
  obtain ⟨d0, u0, hrev⟩ : ∃ d0 u0, inner.reverse = d0 :: u0 := by
    cases hj : inner.reverse with
    | nil => exact absurd (by simpa using congrArg List.reverse hj) hne
    | cons a b => exact ⟨a, b, rfl⟩
  have hd0 : d0.isDigit = true := by
    apply hlast
    rw [← List.head?_reverse, hrev]
    rfl
  unfold stripChar lstripChar rstripChar
  rw [List.dropWhile_cons_of_pos (by decide)]
  rw [hin, List.cons_append,
    List.dropWhile_cons_of_neg (by simp [isDigit_ne_comma hc0]), ← List.cons_append, ← hin]
  rw [List.reverse_append]
  simp only [List.reverse_cons, List.reverse_nil, List.nil_append, List.singleton_append]
  rw [List.dropWhile_cons_of_pos (by decide), hrev,
    List.dropWhile_cons_of_neg (by simp [isDigit_ne_comma hd0]), ← hrev,
    List.reverse_reverse]

/-- C10: the result of `transform_names_to_ids` is either empty or
begins and ends with a comma and lists, in decimal, the
first-occurrence deduplication of the resolved ids of the names (hence
the ids are pairwise distinct and ordered by the first occurrence of
the names producing them); `get_first_category_id` then returns the
first of those ids, and returns `2040` on the empty string. -/
theorem transform_names_to_ids_shape (m : NameIdMap) (mapType : String)
    (separators text : List Char) (fallbackId : Nat) :
    (dedupSeen [] (mappedIds m mapType fallbackId separators text)).Nodup ∧
    (dedupSeen [] (mappedIds m mapType fallbackId separators text) = [] →
      (transform_names_to_ids m text mapType separators fallbackId).1 = [] ∧
      get_first_category_id
        (transform_names_to_ids m text mapType separators fallbackId).1 = "2040".data) ∧
    (∀ i rest, dedupSeen [] (mappedIds m mapType fallbackId separators text) = i :: rest →
      (transform_names_to_ids m text mapType separators fallbackId).1 =
        ',' :: (joinChar ',' ((i :: rest).map natDigits) ++ [',']) ∧
      get_first_category_id
        (transform_names_to_ids m text mapType separators fallbackId).1 = natDigits i) := by
  refine ⟨dedupSeen_nodup _ [], ?_, ?_⟩
  · intro hids
    have hres : (transform_names_to_ids m text mapType separators fallbackId).1 = [] := by
      by_cases hguard : text = [] ∨ pyStrip text = []
      · simp [transform_names_to_ids, hguard]
      · have hcoll : (collectIds m mapType fallbackId []
            (pySplitAny separators text)).1 = [] := by
          rw [collectIds_fst]
          simpa [mappedIds] using hids
        simp [transform_names_to_ids, hguard, hcoll]
    refine ⟨hres, ?_⟩
    rw [hres]
    decide
  · intro i rest hids
    have hstrip : pyStrip text ≠ [] := by
      intro h0
      have hall := (pyStrip_eq_nil_iff text).mp h0
      have hmap : mappedIds m mapType fallbackId separators text = [] := by
        unfold mappedIds resolveAll
        rw [show ((pySplitAny separators text).map pyStrip).filter (· ≠ []) = [] by
          rw [List.filter_eq_nil_iff]
          intro a ha
          simp only [List.mem_map] at ha
          obtain ⟨p, hp, rfl⟩ := ha
          simp only [ne_eq, decide_not, Bool.not_eq_true', decide_eq_false_iff_not,
            Decidable.not_not]
          exact (pyStrip_eq_nil_iff p).mpr
            (fun c hc => hall c (pySplitAny_sub separators text p hp c hc))]
        rfl
      rw [hmap] at hids
      simp [dedupSeen] at hids
    have htext : text ≠ [] := fun h0 => hstrip (by rw [h0]; rfl)
    have hguard : ¬ (text = [] ∨ pyStrip text = []) := by
      intro h
      rcases h with h | h
      · exact htext h
      · exact hstrip h
    have hcoll : (collectIds m mapType fallbackId []
        (pySplitAny separators text)).1 = i :: rest := by
      rw [collectIds_fst]
      simpa [mappedIds] using hids
    have hres : (transform_names_to_ids m text mapType separators fallbackId).1 =
        ',' :: (joinChar ',' ((i :: rest).map natDigits) ++ [',']) := by
      simp [transform_names_to_ids, hguard, hcoll]
    refine ⟨hres, ?_⟩
    rw [hres]
    -- evaluate get_first_category_id on the formatted string
    have hparts : ∀ p ∈ (i :: rest).map natDigits,
        p ≠ [] ∧ ∀ c ∈ p, c.isDigit = true := by
      intro p hp
      obtain ⟨j, _, rfl⟩ := List.mem_map.mp hp
      exact ⟨natDigits_ne_nil j, natDigits_all_digit j⟩
    have hinner_ne : joinChar ',' ((i :: rest).map natDigits) ≠ [] := by
      rw [List.map_cons]
      exact joinChar_ne_nil ',' _ _ (natDigits_ne_nil i)
    have hinner_head : ∀ c, (joinChar ',' ((i :: rest).map natDigits)).head? = some c →
        c.isDigit = true := by
      intro c hc
      rw [List.map_cons, joinChar_head? ',' _ _ (natDigits_ne_nil i)] at hc
      exact natDigits_all_digit i c (List.mem_of_mem_head? hc)
    have hinner_last : ∀ c, (joinChar ',' ((i :: rest).map natDigits)).getLast? = some c →
        c.isDigit = true :=
      joinChar_digits_getLast ',' _ hparts
    have hlastr : (',' :: (joinChar ',' ((i :: rest).map natDigits) ++ [','])).getLast? =
        some ',' := by
      rw [show ',' :: (joinChar ',' ((i :: rest).map natDigits) ++ [',']) =
        (',' :: joinChar ',' ((i :: rest).map natDigits)) ++ [','] by simp,
        List.getLast?_append_of_ne_nil _ (by simp)]
      rfl
    have hfix : pyStrip (',' :: (joinChar ',' ((i :: rest).map natDigits) ++ [','])) =
        ',' :: (joinChar ',' ((i :: rest).map natDigits) ++ [',']) := by
      apply pyStrip_eq_self
      · intro c hc
        simp only [List.head?_cons] at hc
        injection hc with hc
        subst hc
        decide
      · intro c hc
        rw [hlastr] at hc
        injection hc with hc
        subst hc
        decide
    have hguard2 : ¬ (',' :: (joinChar ',' ((i :: rest).map natDigits) ++ [',']) = [] ∨
        pyStrip (',' :: (joinChar ',' ((i :: rest).map natDigits) ++ [','])) = []) := by
      intro h
      rcases h with h | h
      · simp at h
      · rw [hfix] at h
        simp at h
    have hsplit : pySplitChar ','
        (stripChar ',' (',' :: (joinChar ',' ((i :: rest).map natDigits) ++ [',']))) =
        (i :: rest).map natDigits := by
      rw [stripChar_comma_wrap _ hinner_ne hinner_head hinner_last]
      apply pySplitChar_joinChar
      · simp
      · intro p hp hc
        exact isDigit_ne_comma ((hparts p hp).2 ',' hc) rfl
    have hmapStrip : ((i :: rest).map natDigits).map pyStrip = (i :: rest).map natDigits := by
      rw [List.map_congr_left (fun p hp => pyStrip_of_all_digit (hparts p hp).2)]
      exact List.map_id _
    have hpred : (!(natDigits i).isEmpty && (natDigits i).all Char.isDigit) = true := by
      rw [Bool.and_eq_true]
      constructor
      · cases hj : natDigits i with
        | nil => exact absurd hj (natDigits_ne_nil i)
        | cons a b => rfl
      · exact List.all_eq_true.mpr (natDigits_all_digit i)
    simp only [get_first_category_id, if_neg hguard2, hsplit, hmapStrip]
    rw [List.map_cons,
      @List.find?_cons_of_pos (List Char) (fun s => !s.isEmpty && s.all Char.isDigit)
        (natDigits i) (List.map natDigits rest) hpred]

/-- Witness for C10 at a concrete map and text. -/
theorem transform_names_to_ids_shape_witness :
    (transform_names_to_ids [("categories", [("Play".data, 2041), ("Eat".data, 2043)])]
      "Play,Eat,Unknown,play".data "categories" "|,".data 2040).1 = ",2041,2043,2040,".data ∧
    get_first_category_id ",2041,2043,2040,".data = "2041".data ∧
    (transform_names_to_ids [("categories", [("Play".data, 2041)])]
      " ".data "categories" "|,".data 2040).1 = [] ∧
    get_first_category_id [] = "2040".data := by
  have h1 := (transform_names_to_ids_shape
    [("categories", [("Play".data, 2041), ("Eat".data, 2043)])] "categories"
    "|,".data "Play,Eat,Unknown,play".data 2040).2.2 2041 [2043, 2040] (by decide)
  have h2 := (transform_names_to_ids_shape
    [("categories", [("Play".data, 2041)])] "categories"
    "|,".data " ".data 2040).2.1 (by decide)
  refine ⟨h1.1.trans (by decide), ?_, h2.1, ?_⟩
  · rw [show ",2041,2043,2040,".data =
      (transform_names_to_ids [("categories", [("Play".data, 2041), ("Eat".data, 2043)])]
        "Play,Eat,Unknown,play".data "categories" "|,".data 2040).1 from (h1.1.trans (by decide)).symm]
    exact h1.2.trans (by decide)
  · rw [show ([] : List Char) =
      (transform_names_to_ids [("categories", [("Play".data, 2041)])]
        " ".data "categories" "|,".data 2040).1 from h2.1.symm]
    exact h2.2

/-! ## Claim C1: unmapped names -/

/-- A split piece with non-whitespace content means the whole text has
non-whitespace content. -/
theorem split_piece_guard {seps text name : List Char}
    (hmem : name ∈ pySplitAny seps text) (hne : pyStrip name ≠ []) :
    ¬ (text = [] ∨ pyStrip text = []) := by
  intro h
  have htxt : pyStrip text = [] := by
    rcases h with h | h
    · rw [h]; rfl
    · exact h
  have hall := (pyStrip_eq_nil_iff text).mp htxt
  exact hne ((pyStrip_eq_nil_iff name).mpr
    (fun c hc => hall c (pySplitAny_sub seps text name hmem c hc)))

/-- The tracker output of `transform_names_to_ids` is the loop's
tracker output whenever the text is non-blank. -/
theorem transform_names_to_ids_snd (m : NameIdMap) (mapType : String)
    (separators text : List Char) (fallbackId : Nat)
    (hguard : ¬ (text = [] ∨ pyStrip text = [])) :
    (transform_names_to_ids m text mapType separators fallbackId).2 =
      (collectIds m mapType fallbackId [] (pySplitAny separators text)).2 := by
  simp only [transform_names_to_ids, if_neg hguard]
  split <;> rfl

/-- C1: a category (or tag) name found neither exactly nor in
title-cased form in the loaded map resolves to the fallback id 2040 (as
passed by `transform_categories_to_ids` and `transform_tags_to_ids`)
and its stripped form is added to the unmapped tracker; `transform_csv`
prints the collected category set as a warning after the header and all
row writes. -/
theorem unmapped_name_fallback (m : NameIdMap) (text name : List Char)
    (hmem : name ∈ pySplitAny "|,".data text)
    (hne : pyStrip name ≠ [])
    (h1 : get_id_by_name m (pyStrip name) "categories" = none)
    (h2 : get_id_by_name m (pyTitle (pyStrip name)) "categories" = none) :
    resolveName m "categories" 2040 (pyStrip name) = (2040, true) ∧
    pyStrip name ∈ (transform_categories_to_ids m text).2 ∧
    (∀ tagMap, m.lookup "tags" = some tagMap → tagMap ≠ [] →
      ∀ tname ∈ pySplitAny "|".data text, pyStrip tname ≠ [] →
        get_id_by_name m (pyStrip tname) "tags" = none →
        get_id_by_name m (pyTitle (pyStrip tname)) "tags" = none →
        pyStrip tname ∈ (transform_tags_to_ids m text).2) ∧
    (∀ (inputFile : String) (cfg : TransformConfig) cache rows,
      (transformLoop m cfg cache rows 0 ([], [])).2.1 ≠ [] →
      transformCsvTrace true inputFile m cfg cache rows =
        ((if useStdout cfg then [] else [Event.openOutput]) ++
          Event.writeHeader ::
            (transformLoop m cfg cache rows 0 ([], [])).1.map Event.writeRow) ++
        ([Event.printUnmappedCats
            (sortLex (transformLoop m cfg cache rows 0 ([], [])).2.1)] ++
          (if (transformLoop m cfg cache rows 0 ([], [])).2.2 ≠ [] then
            [Event.printUnmappedTags
              (sortLex (transformLoop m cfg cache rows 0 ([], [])).2.2)]
           else []))) := by
  have hres : resolveName m "categories" 2040 (pyStrip name) = (2040, true) := by
    simp [resolveName, h1, h2]
  refine ⟨hres, ?_, ?_, ?_⟩
  · rw [transform_categories_to_ids,
      transform_names_to_ids_snd m "categories" "|,".data text 2040
        (split_piece_guard hmem hne)]
    exact collectIds_unmapped_mem m "categories" 2040 _ [] name hmem hne
      (by rw [hres])
  · intro tagMap hm htm tname htmem htne th1 th2
    have htres : resolveName m "tags" 2040 (pyStrip tname) = (2040, true) := by
      simp [resolveName, th1, th2]
    rw [show transform_tags_to_ids m text =
        transform_names_to_ids m text "tags" "|".data 2040 by
      simp [transform_tags_to_ids, hm, htm]]
    rw [transform_names_to_ids_snd m "tags" "|".data text 2040
      (split_piece_guard htmem htne)]
    exact collectIds_unmapped_mem m "tags" 2040 _ [] tname htmem htne
      (by rw [htres])
  · intro inputFile cfg cache rows hunm
    simp [transformCsvTrace, hunm]

/-- Witness for C1 at a concrete map, text and configuration. -/
theorem unmapped_name_fallback_witness :
    resolveName [("categories", [("Play".data, 2041)])] "categories" 2040
      "Unknown".data = (2040, true) ∧
    "Unknown".data ∈ (transform_categories_to_ids
      [("categories", [("Play".data, 2041)])] "Unknown".data).2 ∧
    transformCsvTrace true "acf_export.csv" [("categories", [("Play".data, 2041)])]
        ⟨[], false, [], [], [], [], [], false, false, false⟩ []
        [[("Categories", "Unknown".data)]] =
      (([] ++ Event.writeHeader ::
        (transformLoop [("categories", [("Play".data, 2041)])]
          ⟨[], false, [], [], [], [], [], false, false, false⟩ []
          [[("Categories", "Unknown".data)]] 0 ([], [])).1.map Event.writeRow) ++
       ([Event.printUnmappedCats
          (sortLex (transformLoop [("categories", [("Play".data, 2041)])]
            ⟨[], false, [], [], [], [], [], false, false, false⟩ []
            [[("Categories", "Unknown".data)]] 0 ([], [])).2.1)] ++ [])) := by
  have h := unmapped_name_fallback [("categories", [("Play".data, 2041)])]
    "Unknown".data "Unknown".data (by decide) (by decide) (by decide) (by decide)
  refine ⟨?_, ?_, ?_⟩
  · have := h.1
    rwa [show pyStrip "Unknown".data = "Unknown".data by decide] at this
  · have := h.2.1
    rwa [show pyStrip "Unknown".data = "Unknown".data by decide] at this
  · have h3 := h.2.2.2 "acf_export.csv"
      ⟨[], false, [], [], [], [], [], false, false, false⟩ []
      [[("Categories", "Unknown".data)]] (by decide)
    rw [h3]
    have hstd : useStdout ⟨[], false, [], [], [], [], [], false, false, false⟩ = true := by
      decide
    have htags : ¬ ((transformLoop [("categories", [("Play".data, 2041)])]
        ⟨[], false, [], [], [], [], [], false, false, false⟩ []
        [[("Categories", "Unknown".data)]] 0 ([], [])).2.2 ≠ []) := by decide
    rw [if_pos hstd, if_neg htags]

/-! ## Claim C7: missing input file -/

/-- C7: a missing input file makes `transform_csv` print an error
naming the file and exit fatally with status 1, before the output is
opened or any CSV row is written; `list_unique_values` behaves the same
way. -/
theorem missing_input_file_fatal (inputFile : String) (m : NameIdMap)
    (cfg : TransformConfig) (cache : List (List Char × List Char)) (rows : List Row)
    (fieldName : String) (headerFields : List String) :
    transformCsvTrace false inputFile m cfg cache rows =
      [Event.printErr ("❌ Error: Input file not found: " ++ inputFile),
       Event.exitFatal 1] ∧
    listUniqueValuesTrace false inputFile fieldName headerFields rows =
      [Event.printErr ("❌ Error: Input file not found: " ++ inputFile),
       Event.exitFatal 1] ∧
    Event.openOutput ∉ transformCsvTrace false inputFile m cfg cache rows ∧
    (∀ r, Event.writeRow r ∉ transformCsvTrace false inputFile m cfg cache rows) := by
  have h1 : transformCsvTrace false inputFile m cfg cache rows =
      [Event.printErr ("❌ Error: Input file not found: " ++ inputFile),
       Event.exitFatal 1] := by
    simp [transformCsvTrace]
  refine ⟨h1, by simp [listUniqueValuesTrace], ?_, ?_⟩
  · rw [h1]
    simp
  · intro r
    rw [h1]
    simp

/-! ## Claim C8: statelessness of the per-row transformations -/

/-- The row loop's outputs, generalized over the processed count and
the tracker state. -/
theorem transformLoop_fst (m : NameIdMap) (cfg : TransformConfig)
    (cache : List (List Char × List Char)) :
    ∀ (rows : List Row) (p : Nat) (uct : List (List Char) × List (List Char)),
      (transformLoop m cfg cache rows p uct).1 =
        (if cfg.testMode then (rows.filter (rowKeep cfg)).take (5 - p)
         else rows.filter (rowKeep cfg)).map
          (fun row => (buildOutputRowFull m cfg cache row).1) := by
  intro rows
  induction rows with
  | nil =>
    intro p uct
    simp [transformLoop]
  | cons row rest ih =>
    intro p uct
    rw [transformLoop]
    by_cases htest : cfg.testMode ∧ 5 ≤ p
    · rw [if_pos htest]
      rcases htest with ⟨ht, hp⟩
      rw [if_pos ht, show 5 - p = 0 by omega]
      simp
    · rw [if_neg htest]
      by_cases hk : rowKeep cfg row
      · rw [if_neg (by simp [hk])]
        rw [List.filter_cons_of_pos hk]
        show (buildOutputRowFull m cfg cache row).1 ::
          (transformLoop m cfg cache rest (p + 1)
            (setAddAll uct.1 (buildOutputRowFull m cfg cache row).2.1,
             setAddAll uct.2 (buildOutputRowFull m cfg cache row).2.2)).1 = _
        by_cases ht : cfg.testMode
        · have hp : p < 5 := by
            by_contra hge
            exact htest ⟨ht, by omega⟩
          rw [if_pos ht, show 5 - p = (5 - (p + 1)) + 1 by omega, List.take_succ_cons,
            List.map_cons]
          rw [ih (p + 1) _]
          rw [if_pos ht]
        · rw [if_neg ht, List.map_cons, ih (p + 1) _, if_neg ht]
      · rw [if_pos (by simp [hk])]
        rw [List.filter_cons_of_neg (by simp [hk]), ih p uct]

/-- C8: the per-row field transformations are deterministic and
stateless: the rows written by the loop are exactly the pure per-row
builder (which invokes `transform_social_url`, `format_phone`,
`clean_url`, `format_images_gallery`, `extract_jpg_urls_from_content`
and `extract_youtube_urls_from_content`) mapped over the filtered (and
in test mode truncated) input rows, for every initial tracker state. -/
theorem transform_rows_stateless (m : NameIdMap) (cfg : TransformConfig)
    (cache : List (List Char × List Char)) (rows : List Row)
    (uc ut : List (List Char)) :
    (transformLoop m cfg cache rows 0 (uc, ut)).1 =
      (if cfg.testMode then (rows.filter (rowKeep cfg)).take 5
       else rows.filter (rowKeep cfg)).map
        (fun row => (buildOutputRowFull m cfg cache row).1) :=
  transformLoop_fst m cfg cache rows 0 (uc, ut)

/-! ## Claim C6: output row schema -/

/-- C6 as stated is false on the column count: the `fieldnames` list of
the source has 45 columns, not 44. -/
theorem transform_csv_row_schema_counterexample :
    fieldnames.length = 45 ∧ ¬ fieldnames.length = 44 := by
  constructor
  · decide
  · decide

/-- C6 (amended): every row written by `transform_csv` carries exactly
the 45-column `fieldnames` order, beginning `ID`, `post_title`,
`post_content` and ending `youtube_url`, `youtube_urls`,
`post_images`, with the constant values `post_type = 'gd_listing_new'`,
`featured = '0'`, `city = 'St. Croix'`, `region = 'VI'` and
`country = 'United States'`. -/
theorem transform_csv_row_schema (m : NameIdMap) (cfg : TransformConfig)
    (cache : List (List Char × List Char)) (rows : List Row)
    (r : List (String × List Char))
    (hr : r ∈ (transformLoop m cfg cache rows 0 ([], [])).1) :
    r.map Prod.fst = fieldnames ∧
    fieldnames.length = 45 ∧
    fieldnames.take 3 = ["ID", "post_title", "post_content"] ∧
    fieldnames.drop 42 = ["youtube_url", "youtube_urls", "post_images"] ∧
    r.lookup "post_type" = some "gd_listing_new".data ∧
    r.lookup "featured" = some "0".data ∧
    r.lookup "city" = some "St. Croix".data ∧
    r.lookup "region" = some "VI".data ∧
    r.lookup "country" = some "United States".data := by
  rw [transformLoop_fst] at hr
  obtain ⟨row, _, rfl⟩ := List.mem_map.mp hr
  exact ⟨rfl, by decide, by decide, by decide, rfl, rfl, rfl, rfl, rfl⟩

/-- Witness for C6 at a concrete configuration and input row. -/
theorem transform_csv_row_schema_witness :
    ((buildOutputRowFull [] ⟨[], false, [], [], [], [], [], false, false, false⟩
        [] []).1).lookup "post_type" = some "gd_listing_new".data ∧
    ((buildOutputRowFull [] ⟨[], false, [], [], [], [], [], false, false, false⟩
        [] []).1).map Prod.fst = fieldnames := by
  have h := transform_csv_row_schema []
    ⟨[], false, [], [], [], [], [], false, false, false⟩ [] [[]]
    (buildOutputRowFull [] ⟨[], false, [], [], [], [], [], false, false, false⟩ [] []).1
    (by decide)
  exact ⟨h.2.2.2.2.1, h.1⟩

/-! ## Claim C4: image dedup by resolution suffix -/

/-- `firstMinBy` returns a member of a non-empty list. -/
theorem firstMinBy_mem (key : List Char → Nat × Int) :
    ∀ (l : List (List Char)), l ≠ [] → firstMinBy key l ∈ l := by
  intro l
  induction l with
  | nil => intro h; exact absurd rfl h
  | cons u rest ih =>
    intro _
    cases rest with
    | nil => simp [firstMinBy]
    | cons v t =>
      simp only [firstMinBy]
      split
      · exact List.mem_cons_of_mem _ (ih (by simp))
      · exact List.mem_cons_self _ _

/-- `firstMinBy` has lexicographically minimal key among the members. -/
theorem firstMinBy_min (key : List Char → Nat × Int) :
    ∀ (l : List (List Char)), ∀ v ∈ l,
      (key (firstMinBy key l)).1 < (key v).1 ∨
      ((key (firstMinBy key l)).1 = (key v).1 ∧
        (key (firstMinBy key l)).2 ≤ (key v).2) := by
  intro l
  induction l with
  | nil => intro v hv; simp at hv
  | cons u rest ih =>
    intro v hv
    cases rest with
    | nil =>
      simp only [List.mem_singleton] at hv
      subst hv
      simp [firstMinBy]
    | cons b t =>
      simp only [firstMinBy]
      by_cases hlt : (key (firstMinBy key (b :: t))).1 < (key u).1 ∨
          ((key (firstMinBy key (b :: t))).1 = (key u).1 ∧
            (key (firstMinBy key (b :: t))).2 < (key u).2)
      · rw [if_pos hlt]
        rcases List.mem_cons.mp hv with rfl | hv'
        · rcases hlt with h | ⟨h1, h2⟩
          · exact Or.inl h
          · exact Or.inr ⟨h1, le_of_lt h2⟩
        · exact ih v hv'
      · rw [if_neg hlt]
        push_neg at hlt
        obtain ⟨hn1, hn2⟩ := hlt
        rcases List.mem_cons.mp hv with rfl | hv'
        · exact Or.inr ⟨rfl, le_refl _⟩
        · rcases ih v hv' with h | ⟨h1, h2⟩
          · left; omega
          · by_cases he : (key (firstMinBy key (b :: t))).1 = (key u).1
            · have h3 := hn2 he
              right
              omega
            · left
              omega

/-- `selectMaster` returns a member of a non-empty variant list. -/
theorem selectMaster_mem (variants : List (List Char)) (h : variants ≠ []) :
    selectMaster variants ∈ variants := by
  rw [selectMaster]
  cases hf : variants.find? (fun u => (widthOf u).isNone) with
  | some u => exact List.mem_of_find?_eq_some hf
  | none => exact firstMinBy_mem _ _ h

/-- Membership is preserved by `dedupSeen` for fresh elements. -/
theorem mem_dedupSeen {α : Type} [DecidableEq α] :
    ∀ (l seen : List α) (a : α), a ∈ l → a ∉ seen → a ∈ dedupSeen seen l := by
  intro l
  induction l with
  | nil => intro seen a ha; intro _; simp at ha
  | cons b t ih =>
    intro seen a ha hs
    rw [dedupSeen]
    by_cases hab : a = b
    · subst hab
      rw [if_neg hs]
      exact List.mem_cons_self _ _
    · rcases List.mem_cons.mp ha with heq | ha'
      · exact absurd heq hab
      · by_cases hb : b ∈ seen
        · rw [if_pos hb]
          exact ih seen a ha' hs
        · rw [if_neg hb]
          refine List.mem_cons_of_mem _ (ih (b :: seen) a ha' ?_)
          intro h
          rcases List.mem_cons.mp h with heq | h'
          · exact hab heq
          · exact hs h'

/-- `dedupSeenBy` is the identity on key-distinct lists with fresh
keys. -/
theorem dedupSeenBy_of_nodup {α β : Type} [DecidableEq β] (f : α → β) :
    ∀ (l : List α) (seen : List β), (l.map f).Nodup → (∀ a ∈ l, f a ∉ seen) →
      dedupSeenBy f seen l = l := by
  intro l
  induction l with
  | nil => intro seen _ _; rfl
  | cons a t ih =>
    intro seen hnd hs
    rw [dedupSeenBy, if_neg (hs a (List.mem_cons_self _ _))]
    congr 1
    apply ih
    · exact (List.nodup_cons.mp (by simpa using hnd)).2
    · intro b hb hmem
      rcases List.mem_cons.mp hmem with heq | hmem'
      · exact (List.nodup_cons.mp (by simpa using hnd)).1
          (heq ▸ List.mem_map_of_mem f hb)
      · exact hs b (List.mem_cons_of_mem _ hb) hmem'

/-- Filtering the mapped keys by one key leaves exactly its image. -/
theorem filter_map_single (keys : List (List Char)) (f : List Char → List Char)
    (hgf : ∀ k ∈ keys, baseOf (f k) = k) (hnd : keys.Nodup) (g : List Char)
    (hg : g ∈ keys) :
    (keys.map f).filter (fun a => baseOf a == g) = [f g] := by
  induction keys with
  | nil => simp at hg
  | cons k t ih =>
    rw [List.map_cons, List.filter_cons]
    rcases List.mem_cons.mp hg with rfl | hg'
    · rw [if_pos (by rw [hgf g (List.mem_cons_self _ _)]; exact beq_self_eq_true g)]
      rw [show ((t.map f).filter (fun a => baseOf a == g)) = [] from ?_]
      · rw [List.filter_eq_nil_iff]
        intro a ha
        obtain ⟨k', hk', rfl⟩ := List.mem_map.mp ha
        rw [hgf k' (List.mem_cons_of_mem _ hk')]
        simp only [beq_iff_eq]
        intro heq
        subst heq
        exact (List.nodup_cons.mp hnd).1 hk'
    · rw [if_neg ?_]
      · exact ih (fun k' h => hgf k' (List.mem_cons_of_mem _ h))
          (List.nodup_cons.mp hnd).2 hg'
      · rw [hgf k (List.mem_cons_self _ _)]
        simp only [beq_iff_eq]
        intro heq
        subst heq
        exact (List.nodup_cons.mp hnd).1 hg'

/-- The group variants of a base are non-empty, the selected master is
an extracted URL, and its base is the group's base. -/
theorem jpgMasters_group_facts (urls : List (List Char)) (g : List Char)
    (hg : g ∈ urls.map baseOf) :
    urls.filter (fun u => baseOf u == g) ≠ [] ∧
    selectMaster (urls.filter (fun u => baseOf u == g)) ∈ urls ∧
    baseOf (selectMaster (urls.filter (fun u => baseOf u == g))) = g := by
  obtain ⟨u, hu, hbu⟩ := List.mem_map.mp hg
  have hmemf : u ∈ urls.filter (fun u => baseOf u == g) :=
    List.mem_filter.mpr ⟨hu, by rw [hbu]; exact beq_self_eq_true g⟩
  have hne : urls.filter (fun u => baseOf u == g) ≠ [] :=
    List.ne_nil_of_mem hmemf
  have hsel := selectMaster_mem _ hne
  refine ⟨hne, List.mem_of_mem_filter hsel, ?_⟩
  have hcond := (List.mem_filter.mp hsel).2
  simpa using hcond

/-- The bases of the selected masters are exactly the deduplicated
bases. -/
theorem jpgMasters_map_base (urls : List (List Char)) :
    (jpgMasters urls).map baseOf = dedupSeen [] (urls.map baseOf) := by
  rw [jpgMasters, List.map_map]
  have h : ∀ g ∈ dedupSeen [] (urls.map baseOf),
      (baseOf ∘ fun g => selectMaster (urls.filter (fun u => baseOf u == g))) g =
        id g := by
    intro g hgk
    exact (jpgMasters_group_facts urls g (dedupSeen_mem _ _ _ hgk).1).2.2
  rw [List.map_congr_left h, List.map_id]

/-- C4 as stated is false: with extracted URLs differing only in letter
case, the final case-insensitive dedup removes a whole group's selected
master, so that group has no URL at all in the output (instead of
exactly one). -/
theorem extract_jpg_dedup_counterexample :
    "https://x/a.jpg".data ∈
      (jpgMatches "https://x/A.jpg https://x/a.jpg".data).map baseOf ∧
    ((jpgUniqueUrls "https://x/A.jpg https://x/a.jpg".data).filter
      (fun u => baseOf u == "https://x/a.jpg".data)).length = 0 ∧
    extract_jpg_urls_from_content "https://x/A.jpg https://x/a.jpg".data =
      "https://x/A.jpg|||".data := by
  refine ⟨by decide, by decide, by decide⟩

/-- C4 (amended): when the extracted URLs contain no uppercase letters
(so the final case-insensitive dedup removes nothing), then among all
extracted `.jpg`/`.jpeg` URLs sharing one base filename (after removing
a `-WIDTHxHEIGHT` suffix) exactly one appears in the output: one
without a resolution suffix if the group has one, otherwise one of
width 1440 if present, otherwise one of maximal width. -/
theorem extract_jpg_dedup_spec (content : List Char)
    (hlower : ∀ u ∈ jpgMatches content, pyLower u = u)
    (g : List Char) (hg : g ∈ (jpgMatches content).map baseOf) :
    extract_jpg_urls_from_content content = formatGD (jpgUniqueUrls content) ∧
    ((jpgUniqueUrls content).filter (fun u => baseOf u == g)).length = 1 ∧
    (∀ u ∈ jpgUniqueUrls content, baseOf u = g →
      u ∈ jpgMatches content ∧
      ((∃ v ∈ jpgMatches content, baseOf v = g ∧ widthOf v = none) →
        widthOf u = none) ∧
      ((∀ v ∈ jpgMatches content, baseOf v = g → widthOf v ≠ none) →
        (∃ v ∈ jpgMatches content, baseOf v = g ∧ widthOf v = some 1440) →
        widthOf u = some 1440) ∧
      ((∀ v ∈ jpgMatches content, baseOf v = g → widthOf v ≠ none) →
        (∀ v ∈ jpgMatches content, baseOf v = g → widthOf v ≠ some 1440) →
        ∃ w, widthOf u = some w ∧
          ∀ v ∈ jpgMatches content, baseOf v = g →
            ∀ w', widthOf v = some w' → w' ≤ w)) := by
  have hcontent : content ≠ [] := by
    intro h0
    rw [h0, show jpgMatches [] = [] from rfl] at hg
    simp at hg
  have hkeys : g ∈ dedupSeen [] ((jpgMatches content).map baseOf) :=
    mem_dedupSeen _ _ _ hg (by simp)
  have hbases : ∀ k ∈ dedupSeen [] ((jpgMatches content).map baseOf),
      baseOf (selectMaster ((jpgMatches content).filter (fun u => baseOf u == k))) = k :=
    fun k hk => (jpgMasters_group_facts _ k (dedupSeen_mem _ _ _ hk).1).2.2
  have hmlower : ∀ u ∈ jpgMasters (jpgMatches content), pyLower u = u := by
    intro u hu
    obtain ⟨k, hk, rfl⟩ := List.mem_map.mp hu
    exact hlower _ (jpgMasters_group_facts _ k (dedupSeen_mem _ _ _ hk).1).2.1
  have hmnodup : (jpgMasters (jpgMatches content)).Nodup := by
    have hnd : ((jpgMasters (jpgMatches content)).map baseOf).Nodup := by
      rw [jpgMasters_map_base]
      exact dedupSeen_nodup _ _
    exact hnd.of_map
  have huniq : jpgUniqueUrls content = jpgMasters (jpgMatches content) := by
    rw [jpgUniqueUrls]
    apply dedupSeenBy_of_nodup
    · rw [List.map_congr_left (fun u hu => hmlower u hu)]
      simpa using hmnodup
    · intro a _ h
      simp at h
  have hfilter : (jpgMasters (jpgMatches content)).filter (fun u => baseOf u == g) =
      [selectMaster ((jpgMatches content).filter (fun u => baseOf u == g))] := by
    rw [jpgMasters]
    exact filter_map_single _ _ hbases (dedupSeen_nodup _ _) g hkeys
  refine ⟨by rw [extract_jpg_urls_from_content, if_neg hcontent], ?_, ?_⟩
  · rw [huniq, hfilter]
    rfl
  · intro u hu hbu
    rw [huniq] at hu
    have humem : u ∈ (jpgMasters (jpgMatches content)).filter (fun x => baseOf x == g) :=
      List.mem_filter.mpr ⟨hu, by rw [hbu]; exact beq_self_eq_true g⟩
    rw [hfilter] at humem
    have hueq : u = selectMaster ((jpgMatches content).filter (fun x => baseOf x == g)) := by
      simpa using humem
    have hgf := jpgMasters_group_facts (jpgMatches content) g hg
    refine ⟨by rw [hueq]; exact hgf.2.1, ?_, ?_, ?_⟩
    · rintro ⟨v, hv, hbv, hwv⟩
      have hvf : v ∈ (jpgMatches content).filter (fun x => baseOf x == g) :=
        List.mem_filter.mpr ⟨hv, by rw [hbv]; exact beq_self_eq_true g⟩
      rw [hueq]
      rw [selectMaster]
      cases hf : ((jpgMatches content).filter (fun x => baseOf x == g)).find?
          (fun x => (widthOf x).isNone) with
      | some w =>
        have hp := List.find?_some hf
        simpa [Option.isNone_iff_eq_none] using hp
      | none =>
        have hcontra := List.find?_eq_none.mp hf v hvf
        rw [hwv] at hcontra
        simp at hcontra
    · rintro hnone ⟨v, hv, hbv, hw⟩
      have hfn : ((jpgMatches content).filter (fun x => baseOf x == g)).find?
          (fun x => (widthOf x).isNone) = none := by
        rw [List.find?_eq_none]
        intro x hx
        have hxg : baseOf x = g := by simpa using (List.mem_filter.mp hx).2
        have hxn := hnone x (List.mem_filter.mp hx).1 hxg
        simp [Option.isNone_iff_eq_none, hxn]
      have hsel : u = firstMinBy jpgSortKey
          ((jpgMatches content).filter (fun x => baseOf x == g)) := by
        rw [hueq, selectMaster, hfn]
      have hvf : v ∈ (jpgMatches content).filter (fun x => baseOf x == g) :=
        List.mem_filter.mpr ⟨hv, by rw [hbv]; exact beq_self_eq_true g⟩
      have hmin := firstMinBy_min jpgSortKey _ v hvf
      rw [← hsel] at hmin
      have hkv : (jpgSortKey v).1 = 0 := by simp [jpgSortKey, hw]
      by_contra hne1440
      have hku : (jpgSortKey u).1 = 1 := by simp [jpgSortKey, hne1440]
      rcases hmin with h | ⟨h1, _⟩
      · omega
      · omega
    · intro hnone hno1440
      have hfn : ((jpgMatches content).filter (fun x => baseOf x == g)).find?
          (fun x => (widthOf x).isNone) = none := by
        rw [List.find?_eq_none]
        intro x hx
        have hxg : baseOf x = g := by simpa using (List.mem_filter.mp hx).2
        have hxn := hnone x (List.mem_filter.mp hx).1 hxg
        simp [Option.isNone_iff_eq_none, hxn]
      have hsel : u = firstMinBy jpgSortKey
          ((jpgMatches content).filter (fun x => baseOf x == g)) := by
        rw [hueq, selectMaster, hfn]
      have huf : u ∈ (jpgMatches content).filter (fun x => baseOf x == g) := by
        rw [hueq]
        exact selectMaster_mem _ hgf.1
      have hwsome : widthOf u ≠ none :=
        hnone u (List.mem_of_mem_filter huf) hbu
      obtain ⟨w, hw⟩ := Option.ne_none_iff_exists'.mp hwsome
      refine ⟨w, hw, ?_⟩
      intro v hv hbv w' hw'
      have hvf : v ∈ (jpgMatches content).filter (fun x => baseOf x == g) :=
        List.mem_filter.mpr ⟨hv, by rw [hbv]; exact beq_self_eq_true g⟩
      have hmin := firstMinBy_min jpgSortKey _ v hvf
      rw [← hsel] at hmin
      have hku1 : (jpgSortKey u).1 = 1 := by
        simp [jpgSortKey, hno1440 u (List.mem_of_mem_filter huf) hbu]
      have hkv1 : (jpgSortKey v).1 = 1 := by
        simp [jpgSortKey, hno1440 v hv hbv]
      have hku2 : (jpgSortKey u).2 = -(w : Int) := by simp [jpgSortKey, hw]
      have hkv2 : (jpgSortKey v).2 = -(w' : Int) := by simp [jpgSortKey, hw']
      rcases hmin with h | ⟨_, h2⟩
      · omega
      · omega

/-- Witness for C4 at a concrete content. -/
theorem extract_jpg_dedup_spec_witness :
    ((jpgUniqueUrls "https://x/p-100x50.jpg https://x/p.jpg".data).filter
      (fun u => baseOf u == "https://x/p.jpg".data)).length = 1 :=
  (extract_jpg_dedup_spec "https://x/p-100x50.jpg https://x/p.jpg".data
    (by decide) "https://x/p.jpg".data (by decide)).2.1

end WpTransform
